import Mathlib

/-! # qr-code-with-text: a Lean model of `main.go`

The Lambda handler of the repository turns a URL and a short label into a PNG
(QR code plus caption).  This file embeds the functions of `main.go` together
with the parts of the Go standard library whose behaviour the properties below
depend on (`strconv.Atoi`, `utf8.RuneCountInString`, `url.QueryUnescape`,
float64 multiplication, `image/draw`), and proves properties of them.

Conventions
* a Go `string` is a list of bytes (`GoString`); string literals are the UTF-8
  encoding of their text (`goStr`);
* Go `int` is the 64-bit signed integer of the platforms Lambda runs on
  (`strconv.IntSize = 64`); it is modelled by `Int`, with explicit wrapping where
  the library code relies on it;
* a pointer that may be nil is an `Option`;
* library calls that touch the outside world or whose internals are irrelevant
  (file system, font parsing, QR encoding, PNG encoding, the clock) are fields
  of an environment record `Env`.
-/

namespace QRCodeWithText

/-! ## Go strings -/

/-- Go `byte`. -/
abbrev Byte := Fin 256

/-- Go `string`: an immutable sequence of bytes. -/
abbrev GoString := List Byte

/-- Conversion `byte(n)` of a small natural number. -/
def byte (n : Nat) : Byte := ⟨n % 256, Nat.mod_lt _ (by decide)⟩

/-- UTF-8 encoding of one Unicode scalar value (RFC 3629), as `utf8.EncodeRune`
produces it and as the Go compiler stores the characters of a string literal. -/
def utf8EncodeRune (c : Char) : GoString :=
  let n := c.toNat
  if n < 0x80 then [byte n]
  else if n < 0x800 then [byte (0xC0 + n / 64), byte (0x80 + n % 64)]
  else if n < 0x10000 then
    [byte (0xE0 + n / 4096), byte (0x80 + n / 64 % 64), byte (0x80 + n % 64)]
  else
    [byte (0xF0 + n / 262144), byte (0x80 + n / 4096 % 64), byte (0x80 + n / 64 % 64),
     byte (0x80 + n % 64)]

/-- UTF-8 encoding of a sequence of code points. -/
def encodeRunes : List Char → GoString
  | [] => []
  | c :: cs => utf8EncodeRune c ++ encodeRunes cs

/-- The Go string holding the text `s` (a Go string literal, or a decoded JSON string). -/
def goStr (s : String) : GoString := encodeRunes s.data

/-! ## `strconv.Atoi` (Go standard library, 64-bit `int`) -/

/-- The `Err` field of a `*strconv.NumError`. -/
inductive NumError where
  | ErrSyntax
  | ErrRange
  deriving DecidableEq, Repr

/-- Two's-complement wrap of an integer to `int64`. -/
def wrapInt64 (z : Int) : Int := (z + 2 ^ 63) % 2 ^ 64 - 2 ^ 63

/-- Go's `strconv.lower`: `c | ('x' - 'X')`. -/
def lower (c : Byte) : Nat := c.val ||| 0x20

/-- The digit loop of `strconv.ParseUint(s, 10, 0)`: `cutoff = maxUint64/10 + 1`,
`maxVal = 1<<64 - 1`; `n` is the `uint64` accumulator.  Returns the value and the error. -/
def parseUintLoop : GoString → Nat → Nat × Option NumError
  | [], n => (n, none)
  | c :: rest, n =>
    let d? : Option Nat :=
      if 48 ≤ c.val ∧ c.val ≤ 57 then some (c.val - 48)
      else if 97 ≤ lower c ∧ lower c ≤ 122 then some (lower c - 97 + 10)
      else none
    match d? with
    | none => (0, some .ErrSyntax)
    | some d =>
      if d ≥ 10 then (0, some .ErrSyntax)
      else if n ≥ (2 ^ 64 - 1) / 10 + 1 then (2 ^ 64 - 1, some .ErrRange)
      else
        let n10 := (n * 10) % 2 ^ 64
        let n1 := (n10 + d) % 2 ^ 64
        if n1 < n10 ∨ n1 > 2 ^ 64 - 1 then (2 ^ 64 - 1, some .ErrRange)
        else parseUintLoop rest n1

/-- Go's `strconv.ParseUint(s, 10, 0)`. -/
def ParseUint (s : GoString) : Nat × Option NumError :=
  if s = [] then (0, some .ErrSyntax) else parseUintLoop s 0

/-- Go's `strconv.ParseInt(s, 10, 0)` with `IntSize = 64`. -/
def ParseInt (s : GoString) : Int × Option NumError :=
  match s with
  | [] => (0, some .ErrSyntax)
  | c :: rest =>
    let neg := c.val = 45
    let s1 := if c.val = 43 ∨ c.val = 45 then rest else s
    match ParseUint s1 with
    | (_, some .ErrSyntax) => (0, some .ErrSyntax)
    | (un, _) =>
      let cutoff : Nat := 2 ^ 63
      if ¬ neg ∧ un ≥ cutoff then ((cutoff : Int) - 1, some .ErrRange)
      else if neg ∧ un > cutoff then (-(cutoff : Int), some .ErrRange)
      else
        let n := wrapInt64 un
        (if neg then wrapInt64 (-n) else n, none)

/-- The digit loop of the fast path of `strconv.Atoi`:
`ch -= '0'; if ch > 9 { syntax error }; n = n*10 + int(ch)`.
The fast path only runs on fewer than 19 bytes, so `n` stays below `10^18` and
cannot overflow. -/
def atoiFastLoop : GoString → Int → Option Int
  | [], n => some n
  | ch :: rest, n =>
    let ch1 : Byte := ch - 48
    if ch1.val > 9 then none else atoiFastLoop rest (n * 10 + ch1.val)

/-- Go's `strconv.Atoi`: the parsed `int` and the error (`none` is Go's `nil`). -/
def Atoi (s : GoString) : Int × Option NumError :=
  let sLen := s.length
  if 0 < sLen ∧ sLen < 19 then
    match s with
    | [] => (0, some .ErrSyntax)
    | c :: rest =>
      let signed := c.val = 45 ∨ c.val = 43
      let s1 := if signed then rest else s
      if signed ∧ s1.length < 1 then (0, some .ErrSyntax)
      else
        match atoiFastLoop s1 0 with
        | none => (0, some .ErrSyntax)
        | some n => (if c.val = 45 then -n else n, none)
  else
    ParseInt s

/-! ## `main.go`: constants and `decideSize` -/

def LabelMaxLength : Int := 10
def QRSizeDefault : Int := 300
def QRSizeMax : Int := 1000
def QRSizeMin : Int := 150

/-- Embedding of `decideSize` of `main.go`. -/
def decideSize (reqSize : GoString) : Int :=
  match Atoi reqSize with
  | (_, some _) => QRSizeDefault
  | (size, none) =>
    if size > QRSizeMax then QRSizeMax
    else if size < QRSizeMin then QRSizeMin
    else size

/-! ## What the specification means by "parseable as an integer" -/

/-- A byte is an ASCII decimal digit. -/
def isDigit (c : Byte) : Bool := 48 ≤ c.val && c.val ≤ 57

/-- Value of a run of decimal digits, most significant first, continuing from `acc`. -/
def digitsValue (ds : GoString) (acc : Nat) : Nat :=
  ds.foldl (fun n c => n * 10 + (c.val - 48)) acc

/-- The integer a well-formed decimal numeral denotes (optional sign followed by
one or more digits), of any magnitude; `none` for any other string. -/
def numeralValue (s : GoString) : Option Int :=
  match s with
  | [] => none
  | c :: rest =>
    if c.val = 45 then
      if rest ≠ [] ∧ rest.all isDigit then some (-(digitsValue rest 0 : Int)) else none
    else if c.val = 43 then
      if rest ≠ [] ∧ rest.all isDigit then some (digitsValue rest 0 : Int) else none
    else
      if s.all isDigit then some (digitsValue s 0 : Int) else none

/-- The value fits Go's 64-bit `int`. -/
def fitsInt (n : Int) : Prop := -(2 ^ 63) ≤ n ∧ n < 2 ^ 63

instance (n : Int) : Decidable (fitsInt n) := by unfold fitsInt; infer_instance

/-- Parsing as an `int`: the numeral's value when it fits the type. -/
def specParseInt (s : GoString) : Option Int :=
  match numeralValue s with
  | some n => if fitsInt n then some n else none
  | none => none

/-! ## `utf8.RuneCountInString` (Go standard library) -/

/-- The table `first` of package `unicode/utf8`, indexed by the first byte of an
encoding: `0xF0` (`as`) for ASCII, `0xF1` (`xx`) for an invalid first byte, otherwise
the index into `acceptRanges` in the high nibble and the encoded length in the low one. -/
def first (c : Nat) : Nat :=
  if c < 0x80 then 0xF0
  else if c < 0xC2 then 0xF1
  else if c < 0xE0 then 0x02
  else if c = 0xE0 then 0x13
  else if c < 0xED then 0x03
  else if c = 0xED then 0x23
  else if c < 0xF0 then 0x03
  else if c = 0xF0 then 0x34
  else if c < 0xF4 then 0x04
  else if c = 0xF4 then 0x44
  else 0xF1

/-- The table `acceptRanges` of package `unicode/utf8`: the range `(lo, hi)` allowed
for the second byte; the entries after the fifth are zero. -/
def acceptRanges (i : Nat) : Nat × Nat :=
  match i with
  | 0 => (0x80, 0xBF)
  | 1 => (0xA0, 0xBF)
  | 2 => (0x80, 0x9F)
  | 3 => (0x90, 0xBF)
  | 4 => (0x80, 0x8F)
  | _ => (0, 0)

/-- The byte `s[i]` as a number (`0` when out of range, which the callers exclude). -/
def byteAt (s : GoString) (i : Nat) : Nat :=
  match s.get? i with
  | some b => b.val
  | none => 0

/-- One iteration of the loop of `utf8.RuneCountInString`: the number of bytes by which
`i` advances when `s[i] = c` and `rest = s[i+1:]`. -/
def runeSize (c : Byte) (rest : GoString) : Nat :=
  if c.val < 0x80 then 1
  else
    let x := first c.val
    if x = 0xF1 then 1
    else
      let size := x % 8
      if size > rest.length + 1 then 1
      else
        let accept := acceptRanges (x / 16)
        if byteAt rest 0 < accept.1 ∨ accept.2 < byteAt rest 0 then 1
        else if size = 2 then 2
        else if byteAt rest 1 < 0x80 ∨ 0xBF < byteAt rest 1 then 1
        else if size = 3 then 3
        else if byteAt rest 2 < 0x80 ∨ 0xBF < byteAt rest 2 then 1
        else size

/-- The loop of `utf8.RuneCountInString`; `skip` is the number of bytes of the current
rune that `i += size` still steps over. -/
def runeCountLoop : Nat → GoString → Nat
  | _, [] => 0
  | skip + 1, _ :: rest => runeCountLoop skip rest
  | 0, c :: rest => runeCountLoop (runeSize c rest - 1) rest + 1

/-- Go's `utf8.RuneCountInString`: the number of runes in `s`, an erroneous or short
encoding counting as a single rune of width one byte. -/
def RuneCountInString (s : GoString) : Nat := runeCountLoop 0 s

/-! ## Requests and responses (`aws-lambda-go/events`) -/

/-- Go `map[string]string`. -/
abbrev StringMap := List (GoString × GoString)

/-- Index expression `m[k]`: the zero value `""` when the key is absent. -/
def StringMap.index (m : StringMap) (k : GoString) : GoString :=
  match m.lookup k with
  | some v => v
  | none => []

/-- The part of `events.APIGatewayProxyRequest` the handler reads. -/
structure APIGatewayProxyRequest where
  QueryStringParameters : StringMap

/-- The part of `events.APIGatewayProxyResponse` the handler writes (zero values
for everything it leaves out). -/
structure APIGatewayProxyResponse where
  StatusCode : Int := 0
  Headers : StringMap := []
  Body : GoString := []
  IsBase64Encoded : Bool := false
  deriving DecidableEq

/-- Go's `fmt.Sprintf("{Message: %s}", msg)`. -/
def sprintfMessage (msg : GoString) : GoString :=
  goStr "\x7bMessage: " ++ msg ++ goStr "\x7d"

/-- Embedding of `validate` of `main.go`: `none` is the nil response (the request is accepted). -/
def validate (request : APIGatewayProxyRequest) : Option APIGatewayProxyResponse :=
  if request.QueryStringParameters.index (goStr "url") = [] ∨
      request.QueryStringParameters.index (goStr "label") = [] then
    some { Body := sprintfMessage (goStr "クエリパラメータの`url`と`label`は必須です"),
           StatusCode := 400 }
  else if (RuneCountInString (request.QueryStringParameters.index (goStr "label")) : Int)
      > LabelMaxLength then
    some { Body := sprintfMessage (goStr "`label`は10文字以内で指定してください"),
           StatusCode := 400 }
  else none

/-! ## `float64` arithmetic (IEEE 754 binary64, round to nearest even)

Every floating-point value this program computes is finite and has a magnitude between
`2^-4` and `2^64`, far from the limits of the exponent range, so the values are modelled
as dyadic rationals with an unbounded exponent and a 53-bit significand. -/

/-- A finite `float64` value: `(-1)^neg * num / 2^scale`. -/
structure Float64 where
  neg : Bool
  num : Nat
  scale : Nat
  deriving DecidableEq, Repr

/-- Number of low bits that do not fit a 53-bit significand: the least `sh` with
`a / 2^sh < 2^53` (`fuel` bounds the search; `a` itself always suffices). -/
def shiftTo53 : Nat → Nat → Nat
  | 0, _ => 0
  | fuel + 1, a => if a < 2 ^ 53 then 0 else shiftTo53 fuel (a / 2) + 1

/-- Rounding of the natural number `a` to 53 significant bits, to nearest, ties to the
even significand: the rounding every IEEE 754 operation applies to its exact result. -/
def round53 (a : Nat) : Nat :=
  let sh := shiftTo53 a a
  let q := a / 2 ^ sh
  let r := a % 2 ^ sh
  if 2 * r < 2 ^ sh then q * 2 ^ sh
  else if 2 ^ sh < 2 * r then (q + 1) * 2 ^ sh
  else if q % 2 = 0 then q * 2 ^ sh
  else (q + 1) * 2 ^ sh

/-- Conversion `float64(i)` of an `int`. -/
def Float64.ofInt (i : Int) : Float64 :=
  { neg := decide (i < 0), num := round53 i.natAbs, scale := 0 }

/-- Product `x * y` of two `float64` values: the exact product, rounded. -/
def Float64.mul (x y : Float64) : Float64 :=
  { neg := x.neg != y.neg, num := round53 (x.num * y.num), scale := x.scale + y.scale }

/-- Search for the binary scale of a positive constant `p / q`: the least `k` from the
start value on with `2^52 ≤ p * 2^k / q`. -/
def constScale : Nat → Nat → Nat → Nat → Nat
  | 0, _, _, k => k
  | fuel + 1, p, q, k => if q * 2 ^ 52 ≤ p * 2 ^ k then k else constScale fuel p q (k + 1)

/-- Conversion to `float64` of the exact untyped constant `p / q` (for `0 < p / q < 2^53`,
which covers the constants of this program): the nearest `float64`, ties to even. -/
def Float64.ofConst (p q : Nat) : Float64 :=
  let k := constScale 1074 p q 0
  let t := p * 2 ^ k
  let m := t / q
  let r := t % q
  let m1 := if 2 * r < q then m else if q < 2 * r then m + 1 else if m % 2 = 0 then m else m + 1
  { neg := false, num := m1, scale := k }

/-- Go's `math.Round`: the nearest integer, halves away from zero. -/
def mathRound (x : Float64) : Float64 :=
  { neg := x.neg, num := (2 * x.num + 2 ^ x.scale) / 2 ^ (x.scale + 1), scale := 0 }

/-- Go's `math.Floor`: the greatest integer value not above `x`. -/
def mathFloor (x : Float64) : Float64 :=
  if x.neg then { neg := true, num := (x.num + 2 ^ x.scale - 1) / 2 ^ x.scale, scale := 0 }
  else { neg := false, num := x.num / 2 ^ x.scale, scale := 0 }

/-- Conversion `int(x)`: the fraction is discarded (truncation towards zero).  Go leaves
the result unspecified when the value does not fit `int`; it is wrapped here, and no
value of this program is that large. -/
def Float64.toInt (x : Float64) : Int :=
  let t : Int := ((x.num / 2 ^ x.scale : Nat) : Int)
  wrapInt64 (if x.neg then -t else t)

/-! ## `main.go`: the layout ratios -/

/-- Constant `RateBaseImageHeight = 1.1`, converted to `float64` where it is multiplied. -/
def RateBaseImageHeight : Float64 := Float64.ofConst 11 10

/-- Constant `RateLabelHeight = 1.075`. -/
def RateLabelHeight : Float64 := Float64.ofConst 1075 1000

/-- Constant `RateFontSize = 0.1`. -/
def RateFontSize : Float64 := Float64.ofConst 1 10

/-! ## Package `image`: points, rectangles, colours, images -/

/-- Go's `image.Point`. -/
structure Point where
  X : Int
  Y : Int
  deriving DecidableEq, Repr

/-- Go's `image.Rectangle`: the points with `Min.X ≤ x < Max.X` and `Min.Y ≤ y < Max.Y`. -/
structure Rectangle where
  Min : Point
  Max : Point
  deriving DecidableEq, Repr

/-- Go's `image.ZR`, the zero rectangle. -/
def image.ZR : Rectangle := { Min := ⟨0, 0⟩, Max := ⟨0, 0⟩ }

/-- Go's `image.Rect`: coordinates are swapped where needed to make the rectangle well-formed. -/
def image.Rect (x0 y0 x1 y1 : Int) : Rectangle :=
  let (x0, x1) := if x0 > x1 then (x1, x0) else (x0, x1)
  let (y0, y1) := if y0 > y1 then (y1, y0) else (y0, y1)
  { Min := ⟨x0, y0⟩, Max := ⟨x1, y1⟩ }

/-- Go's `Point.Sub`. -/
def Point.Sub (p q : Point) : Point := ⟨p.X - q.X, p.Y - q.Y⟩

/-- Go's `Point.In`: the point lies in the rectangle. -/
def Point.In (p : Point) (r : Rectangle) : Prop :=
  r.Min.X ≤ p.X ∧ p.X < r.Max.X ∧ r.Min.Y ≤ p.Y ∧ p.Y < r.Max.Y

instance (p : Point) (r : Rectangle) : Decidable (p.In r) := by unfold Point.In; infer_instance

/-- Go's `Rectangle.Size`. -/
def Rectangle.Size (r : Rectangle) : Point := ⟨r.Max.X - r.Min.X, r.Max.Y - r.Min.Y⟩

/-- Go's `Rectangle.Add`: translation by `p`. -/
def Rectangle.Add (r : Rectangle) (p : Point) : Rectangle :=
  { Min := ⟨r.Min.X + p.X, r.Min.Y + p.Y⟩, Max := ⟨r.Max.X + p.X, r.Max.Y + p.Y⟩ }

/-- Go's `Rectangle.Empty`. -/
def Rectangle.Empty (r : Rectangle) : Prop := r.Min.X ≥ r.Max.X ∨ r.Min.Y ≥ r.Max.Y

instance (r : Rectangle) : Decidable r.Empty := by unfold Rectangle.Empty; infer_instance

/-- Go's `Rectangle.Intersect`: the largest rectangle contained in both, `ZR` when they do
not overlap. -/
def Rectangle.Intersect (r s : Rectangle) : Rectangle :=
  let r1 : Rectangle :=
    { Min := ⟨if r.Min.X < s.Min.X then s.Min.X else r.Min.X,
              if r.Min.Y < s.Min.Y then s.Min.Y else r.Min.Y⟩,
      Max := ⟨if r.Max.X > s.Max.X then s.Max.X else r.Max.X,
              if r.Max.Y > s.Max.Y then s.Max.Y else r.Max.Y⟩ }
  if r1.Empty then image.ZR else r1

/-- A `color.Color`, identified with the result of its method `RGBA()`:
alpha-premultiplied red, green, blue and alpha in `[0, 0xffff]`. -/
structure Color where
  R : Nat
  G : Nat
  B : Nat
  A : Nat
  deriving DecidableEq, Repr

/-- Go's `color.Black` (`Gray16{0}`). -/
def color.Black : Color := ⟨0, 0, 0, 0xffff⟩

/-- Go's `color.White` (`Gray16{0xffff}`). -/
def color.White : Color := ⟨0xffff, 0xffff, 0xffff, 0xffff⟩

/-- Go's `color.RGBA`, the pixel format of `image.RGBA`: four `uint8` channels. -/
structure RGBAColor where
  R : Nat
  G : Nat
  B : Nat
  A : Nat
  deriving DecidableEq, Repr

/-- Method `RGBA()` of `color.RGBA`: each channel `c` becomes `c | c << 8`. -/
def RGBAColor.RGBA (c : RGBAColor) : Color :=
  ⟨c.R * 0x101, c.G * 0x101, c.B * 0x101, c.A * 0x101⟩

/-- An `image.Image` (interface): its bounds and the colour at each point. -/
structure Image where
  Bounds : Rectangle
  At : Int → Int → Color

/-- An `*image.RGBA`: its bounds and the pixel stored for each point of them (the
layout of `Pix` and `Stride` is abstracted to a function of the coordinates). -/
structure RGBA where
  Rect : Rectangle
  Pix : Int → Int → RGBAColor

/-- Method `At` of `*image.RGBA`: the zero colour outside the bounds. -/
def RGBA.At (p : RGBA) (x y : Int) : Color :=
  if Point.In ⟨x, y⟩ p.Rect then (p.Pix x y).RGBA else ⟨0, 0, 0, 0⟩

/-- Method `Bounds` of `*image.RGBA`. -/
def RGBA.Bounds (p : RGBA) : Rectangle := p.Rect

/-- Go's `image.NewRGBA`: all pixels zero. -/
def image.NewRGBA (r : Rectangle) : RGBA := { Rect := r, Pix := fun _ _ => ⟨0, 0, 0, 0⟩ }

/-- Go's `image.NewUniform`: an image of one colour with practically unbounded bounds. -/
def image.NewUniform (c : Color) : Image :=
  { Bounds := { Min := ⟨-1000000000, -1000000000⟩, Max := ⟨1000000000, 1000000000⟩ },
    At := fun _ _ => c }

/-- Go's `image.White`. -/
def image.White : Image := image.NewUniform color.White

/-- Go's `image.Black`. -/
def image.Black : Image := image.NewUniform color.Black

/-! ## Package `image/draw` -/

/-- Go's `draw.clip` without a mask: the destination rectangle clipped to the bounds of the
destination and of the translated source, and the source point moved along. -/
def draw.clip (dst : Rectangle) (r : Rectangle) (src : Rectangle) (sp : Point) :
    Rectangle × Point :=
  let orig := r.Min
  let r1 := r.Intersect dst
  let r2 := r1.Intersect (src.Add (orig.Sub sp))
  let dx := r2.Min.X - orig.X
  let dy := r2.Min.Y - orig.Y
  (r2, ⟨sp.X + dx, sp.Y + dy⟩)

/-- The pixel `draw.Src` stores for a source colour: `uint8(c >> 8)` per channel. -/
def draw.toRGBA (c : Color) : RGBAColor :=
  ⟨c.R / 256 % 256, c.G / 256 % 256, c.B / 256 % 256, c.A / 256 % 256⟩

/-- Go's `draw.Draw(dst, r, src, sp, draw.Src)` on an `*image.RGBA` destination: every pixel
of the clipped rectangle is replaced by the source pixel aligned with it. -/
def draw.Draw (dst : RGBA) (r : Rectangle) (src : Image) (sp : Point) : RGBA :=
  let c := draw.clip dst.Bounds r src.Bounds sp
  let r1 := c.1
  let sp1 := c.2
  if r1.Empty then dst
  else
    { dst with
      Pix := fun x y =>
        if Point.In ⟨x, y⟩ r1 then
          draw.toRGBA (src.At (sp1.X + (x - r1.Min.X)) (sp1.Y + (y - r1.Min.Y)))
        else dst.Pix x y }

/-! ## `net/url.QueryUnescape` -/

/-- Go's `url.ishex`. -/
def ishex (c : Byte) : Bool :=
  (48 ≤ c.val && c.val ≤ 57) || (97 ≤ c.val && c.val ≤ 102) || (65 ≤ c.val && c.val ≤ 70)

/-- Go's `url.unhex`. -/
def unhex (c : Byte) : Nat :=
  if 48 ≤ c.val ∧ c.val ≤ 57 then c.val - 48
  else if 97 ≤ c.val ∧ c.val ≤ 102 then c.val - 97 + 10
  else if 65 ≤ c.val ∧ c.val ≤ 70 then c.val - 65 + 10
  else 0

/-- First loop of `url.unescape` in query-component mode: the ill-formed escape it
reports (at most three bytes from the offending `%` on), if any. -/
def unescapeCheck : GoString → Option GoString
  | [] => none
  | c :: rest =>
    if c.val = 37 then
      match rest with
      | h1 :: h2 :: rest2 =>
        if ishex h1 && ishex h2 then unescapeCheck rest2 else some [c, h1, h2]
      | _ => some (c :: rest)
    else unescapeCheck rest

/-- Second loop of `url.unescape` in query-component mode: `%XX` becomes the byte `XX`
and `+` a space. -/
def unescapeDecode : GoString → GoString
  | [] => []
  | c :: rest =>
    if c.val = 37 then
      match rest with
      | h1 :: h2 :: rest2 => byte (unhex h1 * 16 + unhex h2) :: unescapeDecode rest2
      | _ => []
    else if c.val = 43 then byte 32 :: unescapeDecode rest
    else c :: unescapeDecode rest

/-- A Go `error` value. -/
inductive GoError where
  | EscapeError (s : GoString)
  | other (msg : GoString)
  deriving DecidableEq, Repr

/-- Go's `url.QueryUnescape`. -/
def QueryUnescape (s : GoString) : Except GoError GoString :=
  match unescapeCheck s with
  | some bad => .error (.EscapeError bad)
  | none => .ok (unescapeDecode s)

/-! ## Fonts and text drawing (`freetype/truetype`, `x/image/font`, `x/image/math/fixed`) -/

/-- A parsed `*truetype.Font`, identified with the bytes it was parsed from. -/
structure Font where
  ttf : List Byte
  deriving DecidableEq

/-- Go's `truetype.Options`. -/
structure Options where
  Size : Float64
  DPI : Float64
  Hinting : Int
  GlyphCacheEntries : Int
  SubPixelsX : Int
  SubPixelsY : Int
  deriving DecidableEq

/-- The `font.Face` that `truetype.NewFace(ft, &opt)` returns: the font and the options
it was created with. -/
structure Face where
  font : Font
  opts : Options
  deriving DecidableEq

/-- Go's `fixed.Point26_6`; the coordinates are `fixed.Int26_6` values, i.e. `int32` counts
of 1/64 pixel. -/
structure Point26_6 where
  X : Int
  Y : Int
  deriving DecidableEq, Repr

/-- Two's-complement wrap of an integer to `int32`. -/
def wrapInt32 (z : Int) : Int := (z + 2 ^ 31) % 2 ^ 32 - 2 ^ 31

/-- Go's `fixed.I(i)`: `Int26_6(i << 6)`. -/
def fixed.I (i : Int) : Int := wrapInt32 (i * 64)

/-- Go's `font.Drawer`. -/
structure Drawer where
  Dst : RGBA
  Src : Image
  Face : Face
  Dot : Point26_6

/-! ## The outside world -/

/-- The library calls whose result depends on data outside the program or on algorithms
that no property below looks into. -/
structure Env where
  /-- Go's `qr.Encode(url, qr.M, qr.Auto)`. -/
  qrEncode : GoString → Except GoError Image
  /-- Go's `barcode.Scale(code, width, height)`. -/
  barcodeScale : Image → Int → Int → Except GoError Image
  /-- Go's `os.ReadFile(path)`. -/
  osReadFile : GoString → Except GoError (List Byte)
  /-- Go's `truetype.Parse(ttf)`. -/
  truetypeParse : List Byte → Except GoError Font
  /-- Go's `Drawer.MeasureString(s)` for a drawer with the given face: a `fixed.Int26_6`. -/
  measureString : Face → GoString → Int
  /-- Go's `Drawer.DrawString(s)`: the destination image after the text has been drawn. -/
  drawString : Drawer → GoString → RGBA
  /-- Go's `png.Encode(&buf, img)`: the bytes written to the buffer. -/
  pngEncode : RGBA → Except GoError (List Byte)
  /-- Go's `base64.StdEncoding.EncodeToString(bytes)`. -/
  base64Encode : List Byte → GoString
  /-- Go's `time.Now().Format(http.TimeFormat)` at the first reading of the clock. -/
  cacheFrom : GoString
  /-- Go's `time.Now().AddDate(1, 0, 0).Format(http.TimeFormat)` at the second reading. -/
  cacheUntil : GoString

/-! ## `main.go`: the pipeline -/

def FontFilePath : GoString := goStr "./bin/mgenplus-2cp-regular.ttf"

/-- Embedding of `QRCode` of `main.go`. -/
structure QRCode where
  URL : GoString
  Size : Int
  Image : Image

/-- Embedding of `NewQRCode` of `main.go`. -/
def NewQRCode (env : Env) (reqURL : GoString) (size : Int) : Except GoError QRCode :=
  match QueryUnescape reqURL with
  | .error decodeErr => .error decodeErr
  | .ok url =>
    match env.qrEncode url with
    | .error encodeErr => .error encodeErr
    | .ok encoded =>
      match env.barcodeScale encoded size size with
      | .error scaleErr => .error scaleErr
      | .ok scaled => .ok { URL := url, Size := size, Image := scaled }

/-- Embedding of `BaseImage` of `main.go`. -/
structure BaseImage where
  Width : Int
  Height : Int
  BackGround : RGBA

/-- Embedding of `NewBaseImage` of `main.go`; its error result is always nil. -/
def NewBaseImage (size : Int) : Except GoError BaseImage :=
  let bgWidth := size
  let bgHeight := (mathRound ((Float64.ofInt size).mul RateBaseImageHeight)).toInt
  let backGround := image.NewRGBA (image.Rect 0 0 bgWidth bgHeight)
  let backGround := draw.Draw backGround backGround.Bounds image.White ⟨0, 0⟩
  .ok { Width := bgWidth, Height := bgHeight, BackGround := backGround }

/-- Embedding of `Label` of `main.go`. -/
structure Label where
  Text : GoString
  Font : Face

/-- The drawer `BaseImage.addLabel` has set up when it calls `DrawString`. -/
def BaseImage.labelDrawer (env : Env) (b : BaseImage) (label : Label) : Drawer :=
  let d : Drawer :=
    { Dst := b.BackGround, Src := image.Black, Face := label.Font, Dot := ⟨0, 0⟩ }
  let x := Int.tdiv (wrapInt32 (fixed.I b.Width - env.measureString d.Face label.Text)) 2
  let y := fixed.I (mathRound ((Float64.ofInt b.Width).mul RateLabelHeight)).toInt
  { d with Dot := ⟨x, y⟩ }

/-- Embedding of `BaseImage.addLabel` of `main.go`: the canvas after the label has been drawn. -/
def BaseImage.addLabel (env : Env) (b : BaseImage) (label : Label) : BaseImage :=
  { b with BackGround := env.drawString (b.labelDrawer env label) label.Text }

/-- Embedding of `BaseImage.synthesizeImage` of `main.go`: the canvas after the QR code
has been drawn. -/
def BaseImage.synthesizeImage (b : BaseImage) (qrCode : QRCode) : BaseImage :=
  let rct : Rectangle := { Min := ⟨0, 0⟩, Max := b.BackGround.Bounds.Size }
  { b with BackGround := draw.Draw b.BackGround rct qrCode.Image ⟨0, 0⟩ }

/-- Embedding of `BaseImage.toBase64` of `main.go`. -/
def BaseImage.toBase64 (env : Env) (b : BaseImage) : Except GoError GoString :=
  match env.pngEncode b.BackGround with
  | .error pngErr => .error pngErr
  | .ok imageBinary => .ok (env.base64Encode imageBinary)

/-- Embedding of `NewFont` of `main.go`. -/
def NewFont (env : Env) (size : Int) : Except GoError Face :=
  match env.osReadFile FontFilePath with
  | .error rfErr => .error rfErr
  | .ok ftBinary =>
    match env.truetypeParse ftBinary with
    | .error pErr => .error pErr
    | .ok ft =>
      let fontSize := mathFloor ((Float64.ofInt size).mul RateFontSize)
      let opt : Options :=
        { Size := fontSize, DPI := Float64.ofInt 0, Hinting := 0, GlyphCacheEntries := 0,
          SubPixelsX := 0, SubPixelsY := 0 }
      .ok { font := ft, opts := opt }

/-- Embedding of `NewLabel` of `main.go`. -/
def NewLabel (env : Env) (reqLabel : GoString) (size : Int) : Except GoError Label :=
  match NewFont env size with
  | .error nfErr => .error nfErr
  | .ok font => .ok { Text := reqLabel, Font := font }

/-- The functions `Handler` calls after `validate`. -/
inductive Stage where
  | decideSize
  | NewQRCode
  | NewLabel
  | NewBaseImage
  | addLabel
  | synthesizeImage
  | toBase64
  deriving DecidableEq, Repr

/-- How a call of `Handler` ends. -/
inductive Outcome where
  /-- The function `Handler` returns a response and an error (`none` is nil). -/
  | returned (response : APIGatewayProxyResponse) (err : Option GoError)
  /-- The goroutine panics with "invalid memory address or nil pointer dereference". -/
  | nilDereference
  deriving DecidableEq

/-- A run of `Handler`: the pipeline stages it called, in order, and how it ended. -/
structure Run where
  calls : List Stage
  outcome : Outcome
  deriving DecidableEq

/-- The statement `return *p, err`: evaluating `*p` panics when `p` is nil. -/
def returnDeref (p : Option APIGatewayProxyResponse) (err : Option GoError) : Outcome :=
  match p with
  | none => .nilDereference
  | some response => .returned response err

/-- Embedding of `Handler` of `main.go` (the calls of `log.Printf` are left out). -/
def Handler (env : Env) (request : APIGatewayProxyRequest) : Run :=
  let emptyAGW : Option APIGatewayProxyResponse := none
  match validate request with
  | some errRes => { calls := [], outcome := returnDeref (some errRes) none }
  | none =>
    let size := decideSize (request.QueryStringParameters.index (goStr "size"))
    match NewQRCode env (request.QueryStringParameters.index (goStr "url")) size with
    | .error nqErr =>
      { calls := [.decideSize, .NewQRCode], outcome := returnDeref emptyAGW (some nqErr) }
    | .ok qrCode =>
      match NewLabel env (request.QueryStringParameters.index (goStr "label")) size with
      | .error nlErr =>
        { calls := [.decideSize, .NewQRCode, .NewLabel],
          outcome := returnDeref emptyAGW (some nlErr) }
      | .ok label =>
        match NewBaseImage size with
        | .error nbiErr =>
          { calls := [.decideSize, .NewQRCode, .NewLabel, .NewBaseImage],
            outcome := returnDeref emptyAGW (some nbiErr) }
        | .ok baseImage =>
          let baseImage := baseImage.addLabel env label
          let baseImage := baseImage.synthesizeImage qrCode
          match baseImage.toBase64 env with
          | .error tbErr =>
            { calls := [.decideSize, .NewQRCode, .NewLabel, .NewBaseImage, .addLabel,
                .synthesizeImage, .toBase64],
              outcome := returnDeref emptyAGW (some tbErr) }
          | .ok resBody =>
            { calls := [.decideSize, .NewQRCode, .NewLabel, .NewBaseImage, .addLabel,
                .synthesizeImage, .toBase64],
              outcome := .returned
                { Headers := [(goStr "Content-Type", goStr "image/png"),
                              (goStr "Last-Modified", env.cacheFrom),
                              (goStr "Expires", env.cacheUntil)],
                  Body := resBody,
                  StatusCode := 200,
                  IsBase64Encoded := true } none }

/-! ## Auxiliary definitions for the analysis of `Atoi` -/

/-- What `ParseInt` does after the sign has been split off: `neg` tells whether the
sign was a minus, `ds` is the rest. -/
def parseIntTail (neg : Bool) (ds : GoString) : Int × Option NumError :=
  match ParseUint ds with
  | (_, some .ErrSyntax) => (0, some .ErrSyntax)
  | (un, _) =>
    let cutoff : Nat := 2 ^ 63
    if ¬ (neg = true) ∧ un ≥ cutoff then ((cutoff : Int) - 1, some .ErrRange)
    else if neg = true ∧ un > cutoff then (-(cutoff : Int), some .ErrRange)
    else
      let n := wrapInt64 un
      (if neg = true then wrapInt64 (-n) else n, none)

/-- The signed value of a digit run. -/
def signedValue (neg : Bool) (ds : GoString) : Int :=
  if neg then -(digitsValue ds 0 : Int) else (digitsValue ds 0 : Int)

/-- The specification's reading of a sign flag and a digit run. -/
def specTail (neg : Bool) (ds : GoString) : Option Int :=
  if ds ≠ [] ∧ ds.all isDigit = true ∧ fitsInt (signedValue neg ds) then
    some (signedValue neg ds)
  else none

/-- A parser result agrees with a specification value: success with that value, or an
error when the specification has none. -/
def Agrees (r : Int × Option NumError) (spec : Option Int) : Prop :=
  (∃ n, spec = some n ∧ r = (n, none)) ∨ (spec = none ∧ ∃ v e, r = (v, some e))

/-- The fast path of `Atoi` after the sign has been split off. -/
def atoiFastTail (neg : Bool) (ds : GoString) : Int × Option NumError :=
  match atoiFastLoop ds 0 with
  | none => (0, some .ErrSyntax)
  | some n => (if neg = true then -n else n, none)


/-! ## Auxiliary definitions for the analysis of the layout -/

/-- The canvas height `NewBaseImage` computes for a size. -/
def heightOf (size : Int) : Int :=
  (mathRound ((Float64.ofInt size).mul RateBaseImageHeight)).toInt

/-- The baseline row `addLabel` computes for a canvas width. -/
def baselineOf (width : Int) : Int :=
  (mathRound ((Float64.ofInt width).mul RateLabelHeight)).toInt

/-- The point size `NewFont` computes for a size. -/
def pointSizeOf (size : Int) : Float64 := mathFloor ((Float64.ofInt size).mul RateFontSize)

/-! ## Sample inputs -/

/-- An environment in which every library call succeeds: a blank 21 x 21 symbol, scaled
by resizing its bounds, an empty font file, text that draws nothing and an empty
encoding. -/
def sampleEnv : Env :=
  { qrEncode := fun _ => .ok { Bounds := image.Rect 0 0 21 21, At := fun _ _ => color.White }
    barcodeScale := fun code w h => .ok { Bounds := image.Rect 0 0 w h, At := code.At }
    osReadFile := fun _ => .ok []
    truetypeParse := fun ttf => .ok { ttf := ttf }
    measureString := fun _ s => 640 * s.length
    drawString := fun d _ => d.Dst
    pngEncode := fun _ => .ok []
    base64Encode := fun _ => []
    cacheFrom := goStr "Thu, 01 Jan 2026 00:00:00 GMT"
    cacheUntil := goStr "Fri, 01 Jan 2027 00:00:00 GMT" }

/-- A request whose `url` is the ill-formed escape `%zz`. -/
def badEscapeRequest : APIGatewayProxyRequest :=
  { QueryStringParameters := [(goStr "url", goStr "%zz"), (goStr "label", goStr "A")] }

/-- A request whose label has ten code points of three bytes each. -/
def tenRuneRequest : APIGatewayProxyRequest :=
  { QueryStringParameters :=
      [(goStr "url", goStr "https://example.com"), (goStr "label", goStr "あいうえおかきくけこ")] }

/-- A request whose label has eleven code points. -/
def elevenRuneRequest : APIGatewayProxyRequest :=
  { QueryStringParameters :=
      [(goStr "url", goStr "https://example.com"), (goStr "label", goStr "あいうえおかきくけこさ")] }

/-- The label `HELLO` with the face `NewFont` builds for size 300 in `sampleEnv`. -/
def sampleLabel : Label :=
  { Text := goStr "HELLO",
    Font := { font := { ttf := [] },
              opts := { Size := Float64.ofInt 30, DPI := Float64.ofInt 0, Hinting := 0,
                        GlyphCacheEntries := 0, SubPixelsX := 0, SubPixelsY := 0 } } }

/-- A 300 x 300 bitmap with a black diagonal on white. -/
def sampleQRCode : QRCode :=
  { URL := goStr "https://example.com", Size := 300,
    Image := { Bounds := image.Rect 0 0 300 300,
               At := fun x y => if x = y then color.Black else color.White } }

/-- A 300 x 330 canvas, grey all over. -/
def sampleCanvas : BaseImage :=
  { Width := 300, Height := 330,
    BackGround := { Rect := image.Rect 0 0 300 330, Pix := fun _ _ => ⟨128, 128, 128, 255⟩ } }


/-! # Theorems -/

/-! ## `strconv.Atoi` and `decideSize` -/

theorem digitsValue_cons (c : Byte) (ds : GoString) (acc : Nat) :
    digitsValue (c :: ds) acc = digitsValue ds (acc * 10 + (c.val - 48)) := rfl

theorem le_digitsValue (ds : GoString) (acc : Nat) : acc ≤ digitsValue ds acc := by
  induction ds generalizing acc with
  | nil => exact Nat.le_refl _
  | cons c ds ih =>
    rw [digitsValue_cons]
    have := ih (acc * 10 + (c.val - 48))
    omega

theorem isDigit_iff (c : Byte) : isDigit c = true ↔ 48 ≤ c.val ∧ c.val ≤ 57 := by
  simp [isDigit]

theorem digitsValue_lt (ds : GoString) (acc : Nat) (hd : ds.all isDigit = true) :
    digitsValue ds acc < (acc + 1) * 10 ^ ds.length := by
  induction ds generalizing acc with
  | nil => simp [digitsValue]
  | cons c ds ih =>
    rw [digitsValue_cons]
    rw [List.all_cons, Bool.and_eq_true, isDigit_iff] at hd
    have h := ih (acc * 10 + (c.val - 48)) hd.2
    have hc : acc * 10 + (c.val - 48) + 1 ≤ (acc + 1) * 10 := by omega
    calc digitsValue ds (acc * 10 + (c.val - 48))
        < (acc * 10 + (c.val - 48) + 1) * 10 ^ ds.length := h
      _ ≤ ((acc + 1) * 10) * 10 ^ ds.length := Nat.mul_le_mul_right _ hc
      _ = (acc + 1) * 10 ^ (c :: ds).length := by
          rw [List.length_cons, Nat.pow_succ]; ring

theorem atoiFastLoop_eq (ds : GoString) (acc : Nat) :
    atoiFastLoop ds (acc : Int) =
      if ds.all isDigit then some ((digitsValue ds acc : Nat) : Int) else none := by
  induction ds generalizing acc with
  | nil => simp [atoiFastLoop, digitsValue]
  | cons c ds ih =>
    rw [digitsValue_cons]
    simp only [atoiFastLoop, List.all_cons, isDigit]
    by_cases hd : 48 ≤ c.val ∧ c.val ≤ 57
    · have h1 : ((c - 48 : Byte)).val = c.val - 48 := by
        rw [Fin.sub_def]; simp; omega
      rw [h1]
      have h2 : ¬ (c.val - 48 > 9) := by omega
      rw [if_neg h2]
      have := ih (acc * 10 + (c.val - 48))
      push_cast at this ⊢
      rw [this]
      simp [hd.1, hd.2]
    · have h1 : ((c - 48 : Byte)).val > 9 := by
        rw [Fin.sub_def]; simp; omega
      rw [if_pos h1]
      have : (decide (48 ≤ c.val) && decide (c.val ≤ 57)) = false := by
        simp; omega
      simp [this]

/-- The digit loop of `ParseUint` succeeds exactly on digit runs whose value fits `uint64`. -/
theorem parseUintLoop_ok (ds : GoString) (n : Nat) (hn : n < 2 ^ 64)
    (hd : ds.all isDigit = true) (hv : digitsValue ds n < 2 ^ 64) :
    parseUintLoop ds n = (digitsValue ds n, none) := by
  induction ds generalizing n with
  | nil => simp [parseUintLoop, digitsValue]
  | cons c ds ih =>
    rw [digitsValue_cons] at hv ⊢
    rw [List.all_cons, Bool.and_eq_true, isDigit_iff] at hd
    have hge := le_digitsValue ds (n * 10 + (c.val - 48))
    have hlt : n * 10 + (c.val - 48) < 2 ^ 64 := Nat.lt_of_le_of_lt hge hv
    simp only [parseUintLoop, hd.1, and_self, if_true]
    norm_num at hlt ⊢
    have h1 : ¬ (10 ≤ c.val - 48) := by omega
    have h2 : ¬ (1844674407370955162 ≤ n) := by omega
    have h3 : n * 10 % 18446744073709551616 = n * 10 := by omega
    have h4 : (n * 10 + (c.val - 48)) % 18446744073709551616 = n * 10 + (c.val - 48) := by omega
    simp only [h1, h2, h3, h4, if_false]
    have h5 : ¬ (n * 10 + (↑c - 48) < n * 10 ∨ 18446744073709551615 < n * 10 + (↑c - 48)) := by
      omega
    rw [if_neg h5]
    exact ih _ (by omega) hd.2 (by norm_num; exact hv)

/-- Otherwise the digit loop of `ParseUint` reports an error. -/
theorem parseUintLoop_err (ds : GoString) (n : Nat) (hn : n < 2 ^ 64)
    (h : ¬ (ds.all isDigit = true ∧ digitsValue ds n < 2 ^ 64)) :
    parseUintLoop ds n = (0, some .ErrSyntax) ∨
      parseUintLoop ds n = (2 ^ 64 - 1, some .ErrRange) := by
  induction ds generalizing n with
  | nil => exact absurd ⟨rfl, by simpa [digitsValue] using hn⟩ h
  | cons c ds ih =>
    rw [digitsValue_cons, List.all_cons, Bool.and_eq_true, isDigit_iff] at h
    have hge := le_digitsValue ds (n * 10 + (c.val - 48))
    simp only [parseUintLoop]
    by_cases hc : 48 ≤ c.val ∧ c.val ≤ 57
    · rw [if_pos hc]
      have h1 : ¬ (c.val - 48 ≥ 10) := by omega
      simp only [h1, if_false]
      by_cases h2 : n ≥ (2 ^ 64 - 1) / 10 + 1
      · rw [if_pos h2]; exact Or.inr rfl
      · rw [if_neg h2]
        have h3 : n * 10 % 2 ^ 64 = n * 10 := by omega
        rw [h3]
        by_cases h4 : n * 10 + (c.val - 48) < 2 ^ 64
        · have h5 : (n * 10 + (c.val - 48)) % 2 ^ 64 = n * 10 + (c.val - 48) := by
            omega
          have h6 : ¬ (n * 10 + (c.val - 48) < n * 10 ∨
              n * 10 + (c.val - 48) > 2 ^ 64 - 1) := by omega
          rw [h5, if_neg h6]
          apply ih _ h4
          intro hh
          exact h ⟨⟨hc, hh.1⟩, hh.2⟩
        · have h6 : ((n * 10 + (c.val - 48)) % 2 ^ 64 < n * 10 ∨
              (n * 10 + (c.val - 48)) % 2 ^ 64 > 2 ^ 64 - 1) := by omega
          rw [if_pos h6]; exact Or.inr rfl
    · rw [if_neg hc]
      by_cases hl : 97 ≤ lower c ∧ lower c ≤ 122
      · rw [if_pos hl]
        have h1 : lower c - 97 + 10 ≥ 10 := by omega
        show (if lower c - 97 + 10 ≥ 10 then _ else _) = _ ∨ _
        rw [if_pos h1]
        exact Or.inl rfl
      · rw [if_neg hl]
        exact Or.inl rfl

theorem wrapInt64_of_fits (z : Int) (h : fitsInt z) : wrapInt64 z = z := by
  unfold fitsInt at h
  unfold wrapInt64
  omega

theorem wrapInt64_neg_wrap (v : Nat) (h : v ≤ 2 ^ 63) :
    wrapInt64 (-wrapInt64 (v : Int)) = -(v : Int) := by
  unfold wrapInt64
  omega

/-- Go's `ParseUint` on a digit run that fits. -/
theorem ParseUint_ok (ds : GoString) (hne : ds ≠ []) (hd : ds.all isDigit = true)
    (hv : digitsValue ds 0 < 2 ^ 64) : ParseUint ds = (digitsValue ds 0, none) := by
  unfold ParseUint
  rw [if_neg hne]
  exact parseUintLoop_ok ds 0 (by norm_num) hd hv

theorem ParseUint_err (ds : GoString)
    (h : ¬ (ds ≠ [] ∧ ds.all isDigit = true ∧ digitsValue ds 0 < 2 ^ 64)) :
    ParseUint ds = (0, some .ErrSyntax) ∨ ParseUint ds = (2 ^ 64 - 1, some .ErrRange) := by
  unfold ParseUint
  by_cases hne : ds = []
  · simp [hne]
  · rw [if_neg hne]
    exact parseUintLoop_err ds 0 (by norm_num) (fun hh => h ⟨hne, hh⟩)

theorem parseIntTail_ok (neg : Bool) (ds : GoString) (hne : ds ≠ [])
    (hd : ds.all isDigit = true) (hf : fitsInt (signedValue neg ds)) :
    parseIntTail neg ds = (signedValue neg ds, none) := by
  unfold fitsInt signedValue at hf
  have hv : digitsValue ds 0 < 2 ^ 64 := by
    cases neg <;> simp at hf <;> omega
  unfold parseIntTail
  rw [ParseUint_ok ds hne hd hv]
  cases neg
  · simp only [signedValue, Bool.false_eq_true, if_false, not_false_eq_true, true_and,
      false_and] at hf ⊢
    have h1 : ¬ (digitsValue ds 0 ≥ 2 ^ 63) := by omega
    rw [if_neg h1, wrapInt64_of_fits _ (by unfold fitsInt; omega)]
  · simp only [signedValue, if_true, not_true_eq_false, true_and, false_and, if_false] at hf ⊢
    have h1 : ¬ (digitsValue ds 0 > 2 ^ 63) := by omega
    rw [if_neg h1, wrapInt64_neg_wrap _ (by omega)]

theorem parseIntTail_err (neg : Bool) (ds : GoString)
    (h : ¬ (ds ≠ [] ∧ ds.all isDigit = true ∧ fitsInt (signedValue neg ds))) :
    ∃ v e, parseIntTail neg ds = (v, some e) := by
  by_cases h64 : ds ≠ [] ∧ ds.all isDigit = true ∧ digitsValue ds 0 < 2 ^ 64
  · have hnf : ¬ fitsInt (signedValue neg ds) := fun hf => h ⟨h64.1, h64.2.1, hf⟩
    unfold parseIntTail
    rw [ParseUint_ok ds h64.1 h64.2.1 h64.2.2]
    unfold fitsInt signedValue at hnf
    have := h64.2.2
    cases neg
    · simp only [Bool.false_eq_true, if_false, not_false_eq_true, true_and,
        false_and] at hnf ⊢
      have h1 : (digitsValue ds 0 ≥ 2 ^ 63) := by omega
      rw [if_pos h1]; exact ⟨_, _, rfl⟩
    · simp only [if_true, not_true_eq_false, true_and, false_and, if_false] at hnf ⊢
      have h1 : (digitsValue ds 0 > 2 ^ 63) := by omega
      rw [if_pos h1]; exact ⟨_, _, rfl⟩
  · unfold parseIntTail
    rcases ParseUint_err ds h64 with h1 | h1 <;> rw [h1]
    · exact ⟨_, _, rfl⟩
    · cases neg
      · simp only [Bool.false_eq_true, not_false_eq_true, true_and]
        rw [if_pos (by norm_num)]; exact ⟨_, _, rfl⟩
      · simp only [not_true_eq_false, false_and, if_false, true_and]
        rw [if_pos (by norm_num)]; exact ⟨_, _, rfl⟩

theorem parseIntTail_agrees (neg : Bool) (ds : GoString) :
    Agrees (parseIntTail neg ds) (specTail neg ds) := by
  unfold Agrees specTail
  by_cases h : ds ≠ [] ∧ ds.all isDigit = true ∧ fitsInt (signedValue neg ds)
  · rw [if_pos h]
    exact Or.inl ⟨_, rfl, parseIntTail_ok neg ds h.1 h.2.1 h.2.2⟩
  · rw [if_neg h]
    exact Or.inr ⟨rfl, parseIntTail_err neg ds h⟩

theorem specParseInt_nil : specParseInt [] = none := rfl

theorem specParseInt_cons (c : Byte) (rest : GoString) :
    specParseInt (c :: rest) =
      specTail (decide (c.val = 45)) (if c.val = 43 ∨ c.val = 45 then rest else c :: rest) := by
  unfold specParseInt numeralValue specTail signedValue
  by_cases h45 : c.val = 45
  · simp only [h45, if_true, or_true, decide_True]
    by_cases h : rest ≠ [] ∧ rest.all isDigit = true
    · rw [if_pos h]
      by_cases hf : fitsInt (-(digitsValue rest 0 : Int))
      · simp [h, hf]
      · simp [h, hf]
    · rw [if_neg h]
      have : ¬ (rest ≠ [] ∧ rest.all isDigit = true ∧ fitsInt (-(digitsValue rest 0 : Int))) :=
        fun hh => h ⟨hh.1, hh.2.1⟩
      simp only [this, if_false]
  · by_cases h43 : c.val = 43
    · have h4 : ¬ ((43 : Nat) = 45) := by decide
      simp only [h43, h4, if_true, if_false, true_or, decide_False, Bool.false_eq_true]
      by_cases h : rest ≠ [] ∧ rest.all isDigit = true
      · rw [if_pos h]
        by_cases hf : fitsInt ((digitsValue rest 0 : Int))
        · simp [h, hf]
        · simp [h, hf]
      · rw [if_neg h]
        have : ¬ (rest ≠ [] ∧ rest.all isDigit = true ∧ fitsInt ((digitsValue rest 0 : Int))) :=
          fun hh => h ⟨hh.1, hh.2.1⟩
        simp only [this, if_false]
    · simp only [h45, h43, if_false, or_self, decide_False, Bool.false_eq_true]
      by_cases h : (c :: rest).all isDigit = true
      · rw [if_pos h]
        by_cases hf : fitsInt ((digitsValue (c :: rest) 0 : Int))
        · simp [h, hf]
        · simp [h, hf]
      · rw [if_neg h]
        simp [h]

theorem ParseInt_cons (c : Byte) (rest : GoString) :
    ParseInt (c :: rest) =
      parseIntTail (decide (c.val = 45)) (if c.val = 43 ∨ c.val = 45 then rest else c :: rest) := by
  unfold ParseInt parseIntTail
  simp only [decide_eq_true_eq]

/-- Go's `strconv.ParseInt(s, 10, 0)` succeeds exactly on the numerals that fit `int`,
with their value. -/
theorem ParseInt_agrees (s : GoString) : Agrees (ParseInt s) (specParseInt s) := by
  cases s with
  | nil => exact Or.inr ⟨rfl, _, _, rfl⟩
  | cons c rest =>
    rw [ParseInt_cons, specParseInt_cons]
    exact parseIntTail_agrees _ _

theorem digitsValue_fits (neg : Bool) (ds : GoString) (hd : ds.all isDigit = true)
    (hlen : ds.length < 19) : fitsInt (signedValue neg ds) := by
  have h := digitsValue_lt ds 0 hd
  have hp : 10 ^ ds.length ≤ 10 ^ 18 := Nat.pow_le_pow_right (by decide) (by omega)
  have h2 : digitsValue ds 0 < 10 ^ 18 := by omega
  unfold fitsInt signedValue
  cases neg
  · simp only [Bool.false_eq_true, if_false]; omega
  · simp only [if_true]; omega

theorem atoiFastTail_agrees (neg : Bool) (ds : GoString) (hne : ds ≠ [])
    (hlen : ds.length < 19) : Agrees (atoiFastTail neg ds) (specTail neg ds) := by
  unfold Agrees specTail atoiFastTail
  have h0 := atoiFastLoop_eq ds 0
  simp only [Nat.cast_zero] at h0
  rw [h0]
  by_cases hd : ds.all isDigit = true
  · have hf := digitsValue_fits neg ds hd hlen
    rw [if_pos hd, if_pos ⟨hne, hd, hf⟩]
    refine Or.inl ⟨_, rfl, ?_⟩
    unfold signedValue
    cases neg <;> simp
  · rw [if_neg hd, if_neg (fun hh => hd hh.2.1)]
    exact Or.inr ⟨rfl, _, _, rfl⟩

theorem specTail_nil (neg : Bool) : specTail neg [] = none := by
  unfold specTail
  simp

/-- Go's `strconv.Atoi` succeeds exactly on the decimal numerals whose value fits the
64-bit `int`, and then returns that value; on every other string it returns an error. -/
theorem Atoi_agrees (s : GoString) : Agrees (Atoi s) (specParseInt s) := by
  unfold Atoi
  by_cases hlen : 0 < s.length ∧ s.length < 19
  · simp only [hlen, and_self, if_true]
    cases s with
    | nil => exact Or.inr ⟨rfl, _, _, rfl⟩
    | cons c rest =>
      rw [specParseInt_cons]
      simp only [List.length_cons] at hlen
      by_cases hs : c.val = 45 ∨ c.val = 43
      · have hs2 : c.val = 43 ∨ c.val = 45 := hs.symm
        simp only [hs, hs2, if_true, true_and]
        by_cases hr : rest.length < 1
        · have : rest = [] := List.length_eq_zero.mp (by omega)
          subst this
          rw [if_pos hr, specTail_nil]
          exact Or.inr ⟨rfl, _, _, rfl⟩
        · rw [if_neg hr]
          have hne : rest ≠ [] := by
            intro h; subst h; simp at hr
          have := atoiFastTail_agrees (decide (c.val = 45)) rest hne (by omega)
          unfold atoiFastTail at this
          simpa only [decide_eq_true_eq] using this
      · have hs2 : ¬ (c.val = 43 ∨ c.val = 45) := fun h => hs h.symm
        simp only [hs, hs2, if_false, false_and]
        have := atoiFastTail_agrees (decide (c.val = 45)) (c :: rest) (by simp)
          (by simp only [List.length_cons]; omega)
        unfold atoiFastTail at this
        simpa only [decide_eq_true_eq] using this
  · rw [if_neg hlen]
    exact ParseInt_agrees s

theorem decideSize_eq (s : GoString) :
    decideSize s =
      match specParseInt s with
      | none => 300
      | some n => min (max n 150) 1000 := by
  unfold decideSize
  rcases Atoi_agrees s with ⟨n, hs, ha⟩ | ⟨hs, v, e, ha⟩
  · rw [hs, ha]
    simp only [QRSizeMax, QRSizeMin, min_def, max_def]
    split_ifs <;> omega
  · rw [hs, ha]
    rfl

theorem decideSize_range (s : GoString) : 150 ≤ decideSize s ∧ decideSize s ≤ 1000 := by
  rw [decideSize_eq]
  split
  · omega
  · simp only [min_def, max_def]
    split_ifs <;> omega

/-! ## `utf8.RuneCountInString` counts code points -/

theorem char_valid (c : Char) :
    c.toNat < 0xD800 ∨ (0xDFFF < c.toNat ∧ c.toNat < 0x110000) := by
  have h := c.valid
  simp only [UInt32.isValidChar, Nat.isValidChar] at h
  exact h

theorem byte_val (n : Nat) (h : n < 256) : (byte n).val = n := by
  simp only [byte]
  omega

theorem byteAt_zero (b : Byte) (rest : GoString) : byteAt (b :: rest) 0 = b.val := rfl
theorem byteAt_succ (b : Byte) (rest : GoString) (i : Nat) :
    byteAt (b :: rest) (i + 1) = byteAt rest i := rfl

theorem first_s1 (c : Nat) (h : 0xC2 ≤ c ∧ c < 0xE0) : first c = 0x02 := by
  obtain ⟨hlo, hhi⟩ := h
  interval_cases c <;> rfl

theorem first_s2 (c : Nat) (h : c = 0xE0) : first c = 0x13 := by
  subst h; rfl

theorem first_s3 (c : Nat) (h : (0xE1 ≤ c ∧ c < 0xED) ∨ (0xEE ≤ c ∧ c < 0xF0)) :
    first c = 0x03 := by
  rcases h with ⟨hlo, hhi⟩ | ⟨hlo, hhi⟩ <;> interval_cases c <;> rfl

theorem first_s4 (c : Nat) (h : c = 0xED) : first c = 0x23 := by
  subst h; rfl

theorem first_s5 (c : Nat) (h : c = 0xF0) : first c = 0x34 := by
  subst h; rfl

theorem first_s6 (c : Nat) (h : 0xF1 ≤ c ∧ c < 0xF4) : first c = 0x04 := by
  obtain ⟨hlo, hhi⟩ := h
  interval_cases c <;> rfl

theorem first_s7 (c : Nat) (h : c = 0xF4) : first c = 0x44 := by
  subst h; rfl

/-- The advance computed by `runeSize` on a well-formed multi-byte encoding. -/
theorem runeSize_multi (c : Byte) (rest : GoString) (x lo hi size : Nat)
    (hc : ¬ c.val < 0x80) (hx : first c.val = x) (hx1 : ¬ x = 0xF1) (hsz : x % 8 = size)
    (hacc : acceptRanges (x / 16) = (lo, hi)) (hlen : ¬ size > rest.length + 1)
    (h1 : ¬ (byteAt rest 0 < lo ∨ hi < byteAt rest 0))
    (h2 : size = 2 ∨ ¬ (byteAt rest 1 < 0x80 ∨ 0xBF < byteAt rest 1))
    (h3 : size = 2 ∨ size = 3 ∨ ¬ (byteAt rest 2 < 0x80 ∨ 0xBF < byteAt rest 2)) :
    runeSize c rest = size := by
  unfold runeSize
  rw [if_neg hc]
  simp only [hx, hsz, hacc]
  rw [if_neg hx1, if_neg hlen, if_neg h1]
  by_cases hs2 : size = 2
  · rw [if_pos hs2, hs2]
  · rw [if_neg hs2]
    have h2 := h2.resolve_left hs2
    rw [if_neg h2]
    by_cases hs3 : size = 3
    · rw [if_pos hs3, hs3]
    · rw [if_neg hs3]
      have h3 := (h3.resolve_left hs2).resolve_left hs3
      rw [if_neg h3]

theorem runeCountLoop_encode (c : Char) (rest : GoString) :
    runeCountLoop 0 (utf8EncodeRune c ++ rest) = runeCountLoop 0 rest + 1 := by
  have hv := char_valid c
  unfold utf8EncodeRune
  simp only []
  generalize c.toNat = n at hv
  by_cases h1 : n < 0x80
  · rw [if_pos h1]
    have hs : runeSize (byte n) rest = 1 := by
      unfold runeSize
      rw [byte_val n (by omega), if_pos h1]
    show runeCountLoop (runeSize (byte n) rest - 1) rest + 1 = _
    rw [hs]
  · rw [if_neg h1]
    by_cases h2 : n < 0x800
    · rw [if_pos h2]
      have hb0 := byte_val (0xC0 + n / 64) (by omega)
      have hb1 := byte_val (0x80 + n % 64) (by omega)
      have hs : runeSize (byte (0xC0 + n / 64)) (byte (0x80 + n % 64) :: rest) = 2 := by
        apply runeSize_multi _ _ 0x02 0x80 0xBF 2
        · rw [hb0]; omega
        · rw [hb0]; exact first_s1 _ (by omega)
        · decide
        · rfl
        · rfl
        · simp only [List.length_cons]; omega
        · rw [byteAt_zero, hb1]; omega
        · exact Or.inl rfl
        · exact Or.inl rfl
      show runeCountLoop (runeSize (byte (0xC0 + n / 64)) (byte (0x80 + n % 64) :: rest) - 1)
        (byte (0x80 + n % 64) :: rest) + 1 = _
      rw [hs]
      rfl
    · rw [if_neg h2]
      by_cases h3 : n < 0x10000
      · rw [if_pos h3]
        have hb0 := byte_val (0xE0 + n / 4096) (by omega)
        have hb1 := byte_val (0x80 + n / 64 % 64) (by omega)
        have hb2 := byte_val (0x80 + n % 64) (by omega)
        have hs : runeSize (byte (0xE0 + n / 4096))
            (byte (0x80 + n / 64 % 64) :: byte (0x80 + n % 64) :: rest) = 3 := by
          by_cases e0 : n / 4096 = 0
          · apply runeSize_multi _ _ 0x13 0xA0 0xBF 3
            · rw [hb0]; omega
            · rw [hb0]; exact first_s2 _ (by omega)
            · decide
            · rfl
            · rfl
            · simp only [List.length_cons]; omega
            · rw [byteAt_zero, hb1]; omega
            · right; rw [byteAt_succ, byteAt_zero, hb2]; omega
            · exact Or.inr (Or.inl rfl)
          · by_cases ed : n / 4096 = 13
            · apply runeSize_multi _ _ 0x23 0x80 0x9F 3
              · rw [hb0]; omega
              · rw [hb0]; exact first_s4 _ (by omega)
              · decide
              · rfl
              · rfl
              · simp only [List.length_cons]; omega
              · rw [byteAt_zero, hb1]; omega
              · right; rw [byteAt_succ, byteAt_zero, hb2]; omega
              · exact Or.inr (Or.inl rfl)
            · apply runeSize_multi _ _ 0x03 0x80 0xBF 3
              · rw [hb0]; omega
              · rw [hb0]; exact first_s3 _ (by omega)
              · decide
              · rfl
              · rfl
              · simp only [List.length_cons]; omega
              · rw [byteAt_zero, hb1]; omega
              · right; rw [byteAt_succ, byteAt_zero, hb2]; omega
              · exact Or.inr (Or.inl rfl)
        show runeCountLoop (runeSize (byte (0xE0 + n / 4096))
            (byte (0x80 + n / 64 % 64) :: byte (0x80 + n % 64) :: rest) - 1)
          (byte (0x80 + n / 64 % 64) :: byte (0x80 + n % 64) :: rest) + 1 = _
        rw [hs]
        rfl
      · rw [if_neg h3]
        have hb0 := byte_val (0xF0 + n / 262144) (by omega)
        have hb1 := byte_val (0x80 + n / 4096 % 64) (by omega)
        have hb2 := byte_val (0x80 + n / 64 % 64) (by omega)
        have hb3 := byte_val (0x80 + n % 64) (by omega)
        have hs : runeSize (byte (0xF0 + n / 262144))
            (byte (0x80 + n / 4096 % 64) :: byte (0x80 + n / 64 % 64) ::
              byte (0x80 + n % 64) :: rest) = 4 := by
          by_cases f0 : n / 262144 = 0
          · apply runeSize_multi _ _ 0x34 0x90 0xBF 4
            · rw [hb0]; omega
            · rw [hb0]; exact first_s5 _ (by omega)
            · decide
            · rfl
            · rfl
            · simp only [List.length_cons]; omega
            · rw [byteAt_zero, hb1]; omega
            · right; rw [byteAt_succ, byteAt_zero, hb2]; omega
            · right; right; rw [byteAt_succ, byteAt_succ, byteAt_zero, hb3]; omega
          · by_cases f4 : n / 262144 = 4
            · apply runeSize_multi _ _ 0x44 0x80 0x8F 4
              · rw [hb0]; omega
              · rw [hb0]; exact first_s7 _ (by omega)
              · decide
              · rfl
              · rfl
              · simp only [List.length_cons]; omega
              · rw [byteAt_zero, hb1]; omega
              · right; rw [byteAt_succ, byteAt_zero, hb2]; omega
              · right; right; rw [byteAt_succ, byteAt_succ, byteAt_zero, hb3]; omega
            · apply runeSize_multi _ _ 0x04 0x80 0xBF 4
              · rw [hb0]; omega
              · rw [hb0]; exact first_s6 _ (by omega)
              · decide
              · rfl
              · rfl
              · simp only [List.length_cons]; omega
              · rw [byteAt_zero, hb1]; omega
              · right; rw [byteAt_succ, byteAt_zero, hb2]; omega
              · right; right; rw [byteAt_succ, byteAt_succ, byteAt_zero, hb3]; omega
        show runeCountLoop (runeSize (byte (0xF0 + n / 262144))
            (byte (0x80 + n / 4096 % 64) :: byte (0x80 + n / 64 % 64) ::
              byte (0x80 + n % 64) :: rest) - 1)
          (byte (0x80 + n / 4096 % 64) :: byte (0x80 + n / 64 % 64) ::
              byte (0x80 + n % 64) :: rest) + 1 = _
        rw [hs]
        rfl

/-- On the UTF-8 encoding of a text, `utf8.RuneCountInString` is the number of its
code points. -/
theorem RuneCountInString_encodeRunes (cs : List Char) :
    RuneCountInString (encodeRunes cs) = cs.length := by
  unfold RuneCountInString
  induction cs with
  | nil => rfl
  | cons c cs ih =>
    rw [encodeRunes, runeCountLoop_encode, ih, List.length_cons]

theorem RuneCountInString_goStr (s : String) : RuneCountInString (goStr s) = s.length :=
  RuneCountInString_encodeRunes s.data

/-! ## `float64` rounding -/

theorem shiftTo53_of_lt (fuel a : Nat) (h : a < 2 ^ 53) : shiftTo53 fuel a = 0 := by
  cases fuel with
  | zero => rfl
  | succ f => simp only [shiftTo53, h, if_true]

/-- When bits are dropped, the kept significand has its top bit set. -/
theorem shiftTo53_spec (fuel a : Nat) (h : 0 < shiftTo53 fuel a) :
    2 ^ 52 ≤ a / 2 ^ shiftTo53 fuel a := by
  induction fuel generalizing a with
  | zero => simp [shiftTo53] at h
  | succ f ih =>
    simp only [shiftTo53] at h ⊢
    by_cases ha : a < 2 ^ 53
    · rw [if_pos ha] at h
      exact absurd h (by decide)
    · rw [if_neg ha]
      by_cases hs : 0 < shiftTo53 f (a / 2)
      · have := ih (a / 2) hs
        have e : 2 ^ (shiftTo53 f (a / 2) + 1) = 2 * 2 ^ shiftTo53 f (a / 2) := by
          rw [Nat.pow_succ, Nat.mul_comm]
        rw [e, ← Nat.div_div_eq_div_mul]
        exact this
      · have h0 : shiftTo53 f (a / 2) = 0 := by omega
        rw [h0]
        simp only [zero_add, pow_one]
        omega

/-- Small integers are `float64` values. -/
theorem round53_of_lt (a : Nat) (h : a < 2 ^ 53) : round53 a = a := by
  unfold round53
  simp only [shiftTo53_of_lt a a h, pow_zero, Nat.div_one, Nat.mod_one, mul_zero, mul_one]
  simp

/-- Rounding never falls below the significand truncated to 53 bits. -/
theorem trunc_le_round53 (a : Nat) :
    a / 2 ^ shiftTo53 a a * 2 ^ shiftTo53 a a ≤ round53 a := by
  unfold round53
  simp only []
  split_ifs <;> first | exact Nat.le_refl _ | exact Nat.mul_le_mul_right _ (Nat.le_succ _)

/-- Rounding is monotone against representable lower bounds: a value `m * 2^j` with a
53-bit `m` that does not exceed `a` does not exceed the rounded `a` either. -/
theorem le_round53 (a m j : Nat) (hm : m < 2 ^ 53) (h : m * 2 ^ j ≤ a) :
    m * 2 ^ j ≤ round53 a := by
  refine Nat.le_trans ?_ (trunc_le_round53 a)
  generalize hsh : shiftTo53 a a = sh
  by_cases hj : sh ≤ j
  · obtain ⟨d, rfl⟩ := Nat.exists_eq_add_of_le hj
    rw [Nat.pow_add, ← Nat.mul_assoc, Nat.mul_right_comm] at h ⊢
    apply Nat.mul_le_mul_right
    rw [Nat.le_div_iff_mul_le (Nat.pos_pow_of_pos _ (by decide))]
    convert h using 1
  · have hpos : 0 < shiftTo53 a a := by omega
    have hq := shiftTo53_spec a a hpos
    rw [hsh] at hq
    have hjs : j + 1 ≤ sh := by omega
    calc m * 2 ^ j ≤ 2 ^ 53 * 2 ^ j := Nat.mul_le_mul_right _ (Nat.le_of_lt hm)
      _ = 2 ^ 52 * 2 ^ (j + 1) := by rw [Nat.pow_succ]; ring
      _ ≤ 2 ^ 52 * 2 ^ sh := Nat.mul_le_mul_left _ (Nat.pow_le_pow_right (by decide) hjs)
      _ ≤ a / 2 ^ sh * 2 ^ sh := Nat.mul_le_mul_right _ hq

/-- Rounding at most doubles a value. -/
theorem round53_le (a : Nat) : round53 a ≤ 2 * a := by
  unfold round53
  simp only []
  generalize shiftTo53 a a = sh
  have hdm := Nat.div_add_mod a (2 ^ sh)
  have hq : a / 2 ^ sh * 2 ^ sh ≤ a := Nat.div_mul_le_self _ _
  have hup : 2 ^ sh ≤ 2 * (a % 2 ^ sh) → (a / 2 ^ sh + 1) * 2 ^ sh ≤ 2 * a := by
    intro h2
    rw [Nat.add_mul, Nat.one_mul]
    have : 2 ^ sh * (a / 2 ^ sh) = a / 2 ^ sh * 2 ^ sh := Nat.mul_comm _ _
    omega
  split_ifs with h1 h2 h3
  · omega
  · exact hup (by omega)
  · omega
  · exact hup (by omega)

/-! ## The layout formulas on the supported sizes -/

theorem RateBaseImageHeight_eq : RateBaseImageHeight = ⟨false, 4953959590107546, 52⟩ := by
  decide

theorem heightOf_supported (k : Fin 851) :
    heightOf (150 + (k.val : Int)) = (11 * (150 + (k.val : Int)) + 5) / 10 := by
  revert k
  decide!

theorem baselineOf_supported (k : Fin 851) :
    baselineOf (150 + (k.val : Int)) = (43 * (150 + (k.val : Int)) + 20) / 40 := by
  revert k
  decide!

theorem pointSizeOf_supported (k : Fin 851) :
    pointSizeOf (150 + (k.val : Int)) = Float64.ofInt ((150 + (k.val : Int)) / 10) := by
  revert k
  decide!

theorem supported_index (size : Int) (h1 : 150 ≤ size) (h2 : size ≤ 1000) :
    ∃ k : Fin 851, size = 150 + (k.val : Int) :=
  ⟨⟨(size - 150).toNat, by omega⟩, by simp only []; omega⟩

theorem heightOf_eq (size : Int) (h1 : 150 ≤ size) (h2 : size ≤ 1000) :
    heightOf size = (11 * size + 5) / 10 := by
  obtain ⟨k, rfl⟩ := supported_index size h1 h2
  exact heightOf_supported k

theorem baselineOf_eq (size : Int) (h1 : 150 ≤ size) (h2 : size ≤ 1000) :
    baselineOf size = (43 * size + 20) / 40 := by
  obtain ⟨k, rfl⟩ := supported_index size h1 h2
  exact baselineOf_supported k

theorem pointSizeOf_eq (size : Int) (h1 : 150 ≤ size) (h2 : size ≤ 1000) :
    pointSizeOf size = Float64.ofInt (size / 10) := by
  obtain ⟨k, rfl⟩ := supported_index size h1 h2
  exact pointSizeOf_supported k

/-- The height computed for any width a canvas can have is at least the width. -/
theorem le_heightOf (size : Int) (h0 : 0 ≤ size) (h1 : size < 2 ^ 53) :
    size ≤ heightOf size := by
  obtain ⟨n, rfl⟩ := Int.eq_ofNat_of_zero_le h0
  have hn : n < 2 ^ 53 := by exact_mod_cast h1
  have hlo := le_round53 (n * 4953959590107546) n 52 hn (by omega)
  have hhi := round53_le (n * 4953959590107546)
  unfold heightOf Float64.ofInt Float64.mul mathRound Float64.toInt
  rw [RateBaseImageHeight_eq]
  simp only [Int.natAbs_ofNat, round53_of_lt n hn, pow_zero, Nat.div_one, Nat.zero_add]
  have hneg : decide ((n : Int) < 0) = false := by
    simp only [decide_eq_false_iff_not]; omega
  simp only [hneg, bne_self_eq_false, Bool.false_eq_true, if_false]
  generalize round53 (n * 4953959590107546) = R at hlo hhi
  have hv : (2 * R + 2 ^ 52) / 2 ^ (52 + 1) < 2 ^ 56 := by omega
  have hv2 : n ≤ (2 * R + 2 ^ 52) / 2 ^ (52 + 1) := by omega
  generalize (2 * R + 2 ^ 52) / 2 ^ (52 + 1) = v at hv hv2
  rw [wrapInt64_of_fits _ (by unfold fitsInt; omega)]
  exact_mod_cast hv2

theorem NewBaseImage_eq (size : Int) :
    NewBaseImage size = .ok
      { Width := size, Height := heightOf size,
        BackGround := draw.Draw (image.NewRGBA (image.Rect 0 0 size (heightOf size)))
          (image.Rect 0 0 size (heightOf size)) image.White ⟨0, 0⟩ } := rfl

/-! ## The claims -/

/-- C2: `decideSize s` is 300 when `s` is empty or does not parse as an `int`, and
otherwise the parsed value clamped to `[150, 1000]`, that is `min (max n 150) 1000`; in
particular `"50"` gives 150, `"5000"` gives 1000, `"abc"` gives 300 and `"400"` gives 400. -/
theorem decideSize_default_and_clamp (s : GoString) :
    (decideSize s =
      match specParseInt s with
      | none => 300
      | some n => min (max n 150) 1000) ∧
    specParseInt [] = none ∧ decideSize [] = 300 ∧
    decideSize (goStr "50") = 150 ∧ decideSize (goStr "5000") = 1000 ∧
    decideSize (goStr "abc") = 300 ∧ decideSize (goStr "400") = 400 :=
  ⟨decideSize_eq s, rfl, by decide, by decide, by decide, by decide, by decide⟩

/-- C3, as stated, fails: `"99999999999999999999"` is a well-formed numeral whose value
is above 1000, yet `decideSize` answers the default 300, not 1000. -/
theorem decideSize_huge_numeral_not_clamped :
    numeralValue (goStr "99999999999999999999") = some 99999999999999999999 ∧
    (1000 : Int) < 99999999999999999999 ∧
    decideSize (goStr "99999999999999999999") = 300 ∧
    decideSize (goStr "99999999999999999999") ≠ 1000 := by
  decide

/-- C3, amended: for a well-formed decimal numeral `s` denoting `n`, if `n` fits the
64-bit `int` then `decideSize s` is 1000 when `n` is above 1000 and 150 when `n` is below
150; if `n` does not fit, `decideSize s` is the default 300. -/
theorem decideSize_clamps_numerals_that_fit (s : GoString) (n : Int)
    (hs : numeralValue s = some n) :
    (fitsInt n → (1000 < n → decideSize s = 1000) ∧ (n < 150 → decideSize s = 150)) ∧
    (¬ fitsInt n → decideSize s = 300) := by
  have h := decideSize_eq s
  unfold specParseInt at h
  rw [hs] at h
  constructor
  · intro hf
    simp only [hf, if_true] at h
    rw [h]
    simp only [min_def, max_def]
    constructor <;> intro _ <;> split_ifs <;> omega
  · intro hf
    simp only [hf, if_false] at h
    exact h

/-- C3, amended, at the numerals `"5000"`. -/
theorem decideSize_clamps_numerals_that_fit_witness :
    numeralValue (goStr "5000") = some 5000 ∧
    ((fitsInt 5000 → ((1000 : Int) < 5000 → decideSize (goStr "5000") = 1000) ∧
        ((5000 : Int) < 150 → decideSize (goStr "5000") = 150)) ∧
      (¬ fitsInt 5000 → decideSize (goStr "5000") = 300)) :=
  ⟨by decide, decideSize_clamps_numerals_that_fit (goStr "5000") 5000 (by decide)⟩

theorem sprintfMessage_ne_nil (msg : GoString) : sprintfMessage msg ≠ [] := by
  unfold sprintfMessage
  intro h
  have := congrArg List.length h
  simp only [List.length_append, List.length_nil] at this
  have h2 : (goStr "\x7bMessage: ").length = 10 := by decide
  omega

/-- What `validate` answers, by cases. -/
theorem validate_cases (request : APIGatewayProxyRequest) :
    ((request.QueryStringParameters.index (goStr "url") = [] ∨
        request.QueryStringParameters.index (goStr "label") = [] ∨
        10 < RuneCountInString (request.QueryStringParameters.index (goStr "label"))) ∧
      ∃ res, validate request = some res ∧ res.StatusCode = 400 ∧ res.Body ≠ []) ∨
    ((request.QueryStringParameters.index (goStr "url") ≠ [] ∧
        request.QueryStringParameters.index (goStr "label") ≠ [] ∧
        RuneCountInString (request.QueryStringParameters.index (goStr "label")) ≤ 10) ∧
      validate request = none) := by
  unfold validate
  by_cases h1 : request.QueryStringParameters.index (goStr "url") = [] ∨
      request.QueryStringParameters.index (goStr "label") = []
  · rw [if_pos h1]
    refine Or.inl ⟨?_, _, rfl, rfl, sprintfMessage_ne_nil _⟩
    rcases h1 with h | h
    · exact Or.inl h
    · exact Or.inr (Or.inl h)
  · rw [if_neg h1]
    by_cases h2 : (RuneCountInString (request.QueryStringParameters.index (goStr "label")) : Int)
        > LabelMaxLength
    · rw [if_pos h2]
      refine Or.inl ⟨Or.inr (Or.inr ?_), _, rfl, rfl, sprintfMessage_ne_nil _⟩
      unfold LabelMaxLength at h2
      omega
    · rw [if_neg h2]
      refine Or.inr ⟨⟨fun h => h1 (Or.inl h), fun h => h1 (Or.inr h), ?_⟩, rfl⟩
      unfold LabelMaxLength at h2
      omega

/-- C4: for a request with a non-empty `url` and a non-empty `label`, `validate` answers
a response with status 400 exactly when the label has more than 10 runes, and nil exactly
when it has at most 10; the runes of a label that is the UTF-8 encoding of a text are
its code points, not its bytes. -/
theorem validate_label_limit (request : APIGatewayProxyRequest)
    (hu : request.QueryStringParameters.index (goStr "url") ≠ [])
    (hl : request.QueryStringParameters.index (goStr "label") ≠ []) :
    ((∃ res, validate request = some res ∧ res.StatusCode = 400) ↔
      10 < RuneCountInString (request.QueryStringParameters.index (goStr "label"))) ∧
    (validate request = none ↔
      RuneCountInString (request.QueryStringParameters.index (goStr "label")) ≤ 10) ∧
    (∀ text : String, request.QueryStringParameters.index (goStr "label") = goStr text →
      RuneCountInString (request.QueryStringParameters.index (goStr "label")) = text.length) := by
  refine ⟨?_, ?_, ?_⟩
  · rcases validate_cases request with ⟨hc, res, hv, hs, _⟩ | ⟨⟨_, _, hc⟩, hv⟩
    · constructor
      · intro _
        rcases hc with h | h | h
        · exact absurd h hu
        · exact absurd h hl
        · exact h
      · intro _
        exact ⟨res, hv, hs⟩
    · constructor
      · rintro ⟨res, hr, _⟩
        rw [hv] at hr
        exact absurd hr (by simp)
      · intro h
        omega
  · rcases validate_cases request with ⟨hc, res, hv, _, _⟩ | ⟨⟨_, _, hc⟩, hv⟩
    · constructor
      · intro h
        rw [hv] at h
        exact absurd h (by simp)
      · intro h
        rcases hc with h' | h' | h'
        · exact absurd h' hu
        · exact absurd h' hl
        · omega
    · exact ⟨fun _ => hc, fun _ => hv⟩
  · intro text ht
    rw [ht]
    exact RuneCountInString_goStr text

/-- C4 at a label of ten Japanese characters (30 bytes): accepted. -/
theorem validate_label_limit_witness :
    tenRuneRequest.QueryStringParameters.index (goStr "url") ≠ [] ∧
    tenRuneRequest.QueryStringParameters.index (goStr "label") ≠ [] ∧
    (tenRuneRequest.QueryStringParameters.index (goStr "label")).length = 30 ∧
    RuneCountInString (tenRuneRequest.QueryStringParameters.index (goStr "label")) = 10 ∧
    validate tenRuneRequest = none :=
  ⟨by decide, by decide, by decide, by decide,
    (validate_label_limit tenRuneRequest (by decide) (by decide)).2.1.mpr (by decide)⟩

/-- C5: when `url` is missing or empty, `label` is missing or empty, or the label has
more than 10 runes, `Handler` returns a response with status 400 and a non-empty body,
with a nil error, and has called no pipeline stage. -/
theorem Handler_short_circuits (env : Env) (request : APIGatewayProxyRequest)
    (h : request.QueryStringParameters.index (goStr "url") = [] ∨
      request.QueryStringParameters.index (goStr "label") = [] ∨
      10 < RuneCountInString (request.QueryStringParameters.index (goStr "label"))) :
    ∃ res, Handler env request = { calls := [], outcome := .returned res none } ∧
      res.StatusCode = 400 ∧ res.Body ≠ [] := by
  rcases validate_cases request with ⟨_, res, hv, hs, hb⟩ | ⟨⟨h1, h2, h3⟩, _⟩
  · refine ⟨res, ?_, hs, hb⟩
    unfold Handler
    simp only [hv, returnDeref]
  · rcases h with h | h | h
    · exact absurd h h1
    · exact absurd h h2
    · omega

/-- C5 at a request whose label has eleven code points. -/
theorem Handler_short_circuits_witness :
    10 < RuneCountInString (elevenRuneRequest.QueryStringParameters.index (goStr "label")) ∧
    ∃ res, Handler sampleEnv elevenRuneRequest = { calls := [], outcome := .returned res none } ∧
      res.StatusCode = 400 ∧ res.Body ≠ [] :=
  ⟨by decide, Handler_short_circuits sampleEnv elevenRuneRequest (Or.inr (Or.inr (by decide)))⟩

/-- The function `Handler` never returns a non-nil error: it either panics or returns a response with
a nil error. -/
theorem Handler_outcome (env : Env) (request : APIGatewayProxyRequest) :
    (Handler env request).outcome = .nilDereference ∨
      ∃ res, (Handler env request).outcome = .returned res none := by
  unfold Handler
  simp only []
  split
  · exact Or.inr ⟨_, rfl⟩
  · split
    · exact Or.inl rfl
    · split
      · exact Or.inl rfl
      · split
        · exact Or.inl rfl
        · split
          · exact Or.inl rfl
          · exact Or.inr ⟨_, rfl⟩

/-- C1 at `url="%zz"`, `label="A"`: the request passes `validate`, percent-decoding in
`NewQRCode` fails, and `Handler` then dereferences the nil `emptyAGW`: it panics instead
of returning the error. -/
theorem Handler_panics_on_bad_escape (env : Env) :
    validate badEscapeRequest = none ∧
    NewQRCode env (goStr "%zz") 300 = .error (.EscapeError (goStr "%zz")) ∧
    Handler env badEscapeRequest =
      { calls := [.decideSize, .NewQRCode], outcome := .nilDereference } :=
  ⟨by decide, rfl, rfl⟩

/-- C6: for a size in `[150, 1000]`, `NewBaseImage` succeeds with a canvas of width
`size` and height `(11 * size + 5) / 10`, the exact rounding to nearest (halves away from
zero) of `size * 1.1`, although the code computes the product in `float64`; the background
has these bounds. -/
theorem NewBaseImage_dimensions (size : Int) (h1 : 150 ≤ size) (h2 : size ≤ 1000) :
    ∃ b, NewBaseImage size = .ok b ∧ b.Width = size ∧ b.Height = (11 * size + 5) / 10 ∧
      b.BackGround.Bounds = image.Rect 0 0 size ((11 * size + 5) / 10) := by
  refine ⟨_, NewBaseImage_eq size, rfl, heightOf_eq size h1 h2, ?_⟩
  rw [← heightOf_eq size h1 h2]
  simp only [draw.Draw, RGBA.Bounds]
  split <;> rfl

/-- C6 at size 300: a 300 x 330 canvas. -/
theorem NewBaseImage_dimensions_witness :
    (150 : Int) ≤ 300 ∧ (300 : Int) ≤ 1000 ∧
    ∃ b, NewBaseImage 300 = .ok b ∧ b.Width = 300 ∧ b.Height = 330 ∧
      b.BackGround.Bounds = image.Rect 0 0 300 330 :=
  ⟨by decide, by decide, NewBaseImage_dimensions 300 (by decide) (by decide)⟩

/-- C7: for every string `s`, the canvas built for `decideSize s` is strictly taller than
wide, so the caption band below the QR region has at least one row. -/
theorem canvas_taller_than_wide (s : GoString) :
    ∃ b, NewBaseImage (decideSize s) = .ok b ∧ b.Width = decideSize s ∧
      b.Width < b.Height ∧ 0 < b.Height - b.Width := by
  have hr := decideSize_range s
  refine ⟨_, NewBaseImage_eq (decideSize s), rfl, ?_, ?_⟩
  · show decideSize s < heightOf (decideSize s)
    rw [heightOf_eq _ hr.1 hr.2]
    omega
  · show 0 < heightOf (decideSize s) - decideSize s
    rw [heightOf_eq _ hr.1 hr.2]
    omega

/-- C8: for a size in `[150, 1000]`, the point size in the options of the face `NewFont`
returns is the integer `size / 10` (between 15 and 100), although the code computes
`floor(size * 0.1)` in `float64`. -/
theorem NewFont_point_size (env : Env) (size : Int) (face : Face)
    (h1 : 150 ≤ size) (h2 : size ≤ 1000) (hf : NewFont env size = .ok face) :
    face.opts.Size = Float64.ofInt (size / 10) ∧ 15 ≤ size / 10 ∧ size / 10 ≤ 100 := by
  refine ⟨?_, by omega, by omega⟩
  unfold NewFont at hf
  split at hf
  · cases hf
  · split at hf
    · cases hf
    · cases hf
      exact pointSizeOf_eq size h1 h2

theorem NewFont_sampleEnv : NewFont sampleEnv 300 = .ok sampleLabel.Font := by
  have h : pointSizeOf 300 = Float64.ofInt 30 := by decide
  have e : NewFont sampleEnv 300 =
      .ok ⟨⟨[]⟩, ⟨pointSizeOf 300, Float64.ofInt 0, 0, 0, 0, 0⟩⟩ := rfl
  rw [e, h]
  rfl

/-- C8 at size 300 in the sample environment: point size 30. -/
theorem NewFont_point_size_witness :
    (150 : Int) ≤ 300 ∧ (300 : Int) ≤ 1000 ∧
    NewFont sampleEnv 300 = .ok sampleLabel.Font ∧
    sampleLabel.Font.opts.Size = Float64.ofInt (300 / 10) ∧
    (15 : Int) ≤ 300 / 10 ∧ (300 : Int) / 10 ≤ 100 :=
  ⟨by decide, by decide, NewFont_sampleEnv,
    NewFont_point_size sampleEnv 300 sampleLabel.Font (by decide) (by decide) NewFont_sampleEnv⟩

/-- C10: for a size in `[150, 1000]`, on the canvas `b` built by `NewBaseImage`,
`addLabel` hands `DrawString` the drawer `b.labelDrawer` (the new background is what
`DrawString` of that drawer leaves, drawn in black with the label's face onto the
canvas's background, width and height unchanged), and the baseline of that drawer is row
`Y = (43 * size + 20) / 40`, the rounding of `size * 1.075` (as the fixed-point number
`64 * Y`), with `size < Y < Height`: below the last row of the QR region and above the
bottom edge of the canvas. -/
theorem label_baseline_in_caption_band (env : Env) (size : Int) (label : Label)
    (h1 : 150 ≤ size) (h2 : size ≤ 1000) :
    ∃ b, NewBaseImage size = .ok b ∧
      (b.addLabel env label).BackGround =
        env.drawString (b.labelDrawer env label) label.Text ∧
      (b.addLabel env label).Width = b.Width ∧
      (b.addLabel env label).Height = b.Height ∧
      (b.labelDrawer env label).Dst = b.BackGround ∧
      (b.labelDrawer env label).Src.At = image.Black.At ∧
      (b.labelDrawer env label).Face = label.Font ∧
      (b.labelDrawer env label).Dot.Y = 64 * ((43 * size + 20) / 40) ∧
      size < (43 * size + 20) / 40 ∧ (43 * size + 20) / 40 < b.Height := by
  refine ⟨_, NewBaseImage_eq size, rfl, rfl, rfl, rfl, rfl, rfl, ?_, by omega, ?_⟩
  · show fixed.I (baselineOf size) = _
    rw [baselineOf_eq size h1 h2]
    unfold fixed.I wrapInt32
    omega
  · show _ < heightOf size
    rw [heightOf_eq size h1 h2]
    omega

/-- C10 at size 300: `addLabel` draws through the drawer whose baseline is row 323 on the
300 x 330 canvas. -/
theorem label_baseline_in_caption_band_witness :
    (150 : Int) ≤ 300 ∧ (300 : Int) ≤ 1000 ∧
    ∃ b, NewBaseImage 300 = .ok b ∧
      (b.addLabel sampleEnv sampleLabel).BackGround =
        sampleEnv.drawString (b.labelDrawer sampleEnv sampleLabel) sampleLabel.Text ∧
      (b.addLabel sampleEnv sampleLabel).Width = b.Width ∧
      (b.addLabel sampleEnv sampleLabel).Height = b.Height ∧
      (b.labelDrawer sampleEnv sampleLabel).Dst = b.BackGround ∧
      (b.labelDrawer sampleEnv sampleLabel).Src.At = image.Black.At ∧
      (b.labelDrawer sampleEnv sampleLabel).Face = sampleLabel.Font ∧
      (b.labelDrawer sampleEnv sampleLabel).Dot.Y = 64 * 323 ∧
      (300 : Int) < 323 ∧ 323 < b.Height :=
  ⟨by decide, by decide,
    label_baseline_in_caption_band sampleEnv 300 sampleLabel (by decide) (by decide)⟩

theorem Rectangle.Intersect_of_empty (r s : Rectangle) (h : r.Empty) :
    r.Intersect s = image.ZR := by
  unfold Rectangle.Intersect
  rw [if_pos]
  unfold Rectangle.Empty at h ⊢
  show (if r.Min.X < s.Min.X then s.Min.X else r.Min.X) ≥
      (if r.Max.X > s.Max.X then s.Max.X else r.Max.X) ∨
    (if r.Min.Y < s.Min.Y then s.Min.Y else r.Min.Y) ≥
      (if r.Max.Y > s.Max.Y then s.Max.Y else r.Max.Y)
  rcases h with h | h
  · left
    split_ifs <;> omega
  · right
    split_ifs <;> omega

theorem image.ZR_empty : image.ZR.Empty := Or.inl (Int.le_refl 0)

/-- Drawing into an empty rectangle changes nothing. -/
theorem draw.Draw_of_empty (dst : RGBA) (r : Rectangle) (src : Image) (sp : Point)
    (h : r.Empty) : draw.Draw dst r src sp = dst := by
  have hc : (draw.clip dst.Bounds r src.Bounds sp).1 = image.ZR := by
    show (r.Intersect dst.Bounds).Intersect _ = image.ZR
    rw [Rectangle.Intersect_of_empty r _ h]
    exact Rectangle.Intersect_of_empty _ _ image.ZR_empty
  unfold draw.Draw
  simp only [hc]
  rw [if_pos image.ZR_empty]

theorem image.Rect_origin (w h : Int) (hw : 0 ≤ w) (hh : 0 ≤ h) :
    image.Rect 0 0 w h = ⟨⟨0, 0⟩, ⟨w, h⟩⟩ := by
  unfold image.Rect
  rw [if_neg (by omega), if_neg (by omega)]

/-- The clipping `synthesizeImage` triggers: a canvas `size` wide and `H ≥ size` high and
a `size x size` bitmap, both at the origin, clip the whole-canvas rectangle to the bitmap. -/
theorem clip_canvas_to_bitmap (size H : Int) (h0 : 0 < size) (hH : size ≤ H) :
    draw.clip ⟨⟨0, 0⟩, ⟨size, H⟩⟩
      { Min := ⟨0, 0⟩, Max := Rectangle.Size ⟨⟨0, 0⟩, ⟨size, H⟩⟩ }
      ⟨⟨0, 0⟩, ⟨size, size⟩⟩ ⟨0, 0⟩ = (⟨⟨0, 0⟩, ⟨size, size⟩⟩, ⟨0, 0⟩) := by
  have i1 : Rectangle.Intersect ⟨⟨0, 0⟩, ⟨size, H⟩⟩ ⟨⟨0, 0⟩, ⟨size, H⟩⟩ =
      ⟨⟨0, 0⟩, ⟨size, H⟩⟩ := by
    unfold Rectangle.Intersect Rectangle.Empty
    simp only [lt_self_iff_false, if_false, gt_iff_lt, ge_iff_le]
    rw [if_neg (by omega)]
  have i2 : Rectangle.Intersect ⟨⟨0, 0⟩, ⟨size, H⟩⟩ ⟨⟨0, 0⟩, ⟨size, size⟩⟩ =
      ⟨⟨0, 0⟩, ⟨size, size⟩⟩ := by
    unfold Rectangle.Intersect Rectangle.Empty
    simp only [lt_self_iff_false, if_false, gt_iff_lt, ge_iff_le]
    by_cases hlt : size < H
    · rw [if_pos hlt, if_neg (by omega)]
    · have : H = size := by omega
      subst this
      rw [if_neg hlt, if_neg (by omega)]
  unfold draw.clip
  simp only [Rectangle.Size, Rectangle.Add, Point.Sub, sub_zero, add_zero]
  rw [i1, i2]
  simp only [add_zero]

/-- C9: on a canvas of width `size` and height `round(size * 1.1)` (for every width up
to `2^53`, which no canvas in memory exceeds) and a `size x size` bitmap `q`,
`synthesizeImage` replaces every pixel `(x, y)` with `0 ≤ x, y < size` by the 8-bit pixel
of `q` there, whatever the canvas held (no blending), so that a black or white pixel of
`q` reads back unchanged; every pixel in the rows `y ≥ size` keeps its value, and the
bounds of the canvas are unchanged. -/
theorem synthesizeImage_frame (size : Int) (b : BaseImage) (q : QRCode)
    (h0 : 0 ≤ size) (h1 : size < 2 ^ 53)
    (hb : b.BackGround.Bounds = image.Rect 0 0 size (heightOf size))
    (hq : q.Image.Bounds = image.Rect 0 0 size size) :
    (∀ x y : Int, 0 ≤ x → x < size → 0 ≤ y → y < size →
      (b.synthesizeImage q).BackGround.Pix x y = draw.toRGBA (q.Image.At x y) ∧
      (q.Image.At x y = color.Black ∨ q.Image.At x y = color.White →
        (b.synthesizeImage q).BackGround.At x y = q.Image.At x y)) ∧
    (∀ x y : Int, size ≤ y →
      (b.synthesizeImage q).BackGround.Pix x y = b.BackGround.Pix x y ∧
      (b.synthesizeImage q).BackGround.At x y = b.BackGround.At x y) ∧
    (b.synthesizeImage q).BackGround.Bounds = b.BackGround.Bounds := by
  have hH := le_heightOf size h0 h1
  generalize heightOf size = H at hb hH
  rw [image.Rect_origin size H h0 (by omega)] at hb
  rw [image.Rect_origin size size h0 h0] at hq
  have hrect2 : b.BackGround.Rect = ⟨⟨0, 0⟩, ⟨size, H⟩⟩ := hb
  by_cases hz : size = 0
  · -- an empty canvas: nothing is drawn
    have hsame : (b.synthesizeImage q).BackGround = b.BackGround := by
      show draw.Draw b.BackGround _ _ _ = _
      apply draw.Draw_of_empty
      rw [hb]
      left
      show (0 : Int) ≥ size - 0
      omega
    rw [hsame]
    exact ⟨fun x y hx0 hx1 => by omega, fun x y _ => ⟨rfl, rfl⟩, rfl⟩
  · have hpos : 0 < size := by omega
    have hclip := clip_canvas_to_bitmap size H hpos hH
    have hne : ¬ (Rectangle.Empty ⟨⟨0, 0⟩, ⟨size, size⟩⟩) := by
      unfold Rectangle.Empty
      show ¬ ((0 : Int) ≥ size ∨ (0 : Int) ≥ size)
      omega
    have hdraw : (b.synthesizeImage q).BackGround =
        { b.BackGround with
          Pix := fun x y =>
            if Point.In ⟨x, y⟩ ⟨⟨0, 0⟩, ⟨size, size⟩⟩ then
              draw.toRGBA (q.Image.At (0 + (x - 0)) (0 + (y - 0)))
            else b.BackGround.Pix x y } := by
      unfold BaseImage.synthesizeImage draw.Draw
      simp only []
      rw [hb, hq, hclip, if_neg hne]
    have hpix : ∀ x y : Int, (b.synthesizeImage q).BackGround.Pix x y =
        if Point.In ⟨x, y⟩ ⟨⟨0, 0⟩, ⟨size, size⟩⟩ then draw.toRGBA (q.Image.At x y)
        else b.BackGround.Pix x y := by
      intro x y
      rw [hdraw]
      simp only [sub_zero, zero_add]
    have hrect : (b.synthesizeImage q).BackGround.Rect = b.BackGround.Rect := by
      rw [hdraw]
    refine ⟨?_, ?_, hrect⟩
    · intro x y hx0 hx1 hy0 hy1
      have hin : Point.In ⟨x, y⟩ ⟨⟨0, 0⟩, ⟨size, size⟩⟩ := ⟨hx0, hx1, hy0, hy1⟩
      have hp : (b.synthesizeImage q).BackGround.Pix x y = draw.toRGBA (q.Image.At x y) := by
        rw [hpix, if_pos hin]
      refine ⟨hp, ?_⟩
      intro hc
      have hin2 : Point.In ⟨x, y⟩ (b.synthesizeImage q).BackGround.Rect := by
        rw [hrect, hrect2]
        exact ⟨hx0, hx1, hy0, Int.lt_of_lt_of_le hy1 hH⟩
      unfold RGBA.At
      rw [if_pos hin2, hp]
      rcases hc with hc | hc <;> rw [hc] <;> rfl
    · intro x y hy
      have hout : ¬ Point.In ⟨x, y⟩ ⟨⟨0, 0⟩, ⟨size, size⟩⟩ := by
        intro hin
        have h4 : y < size := hin.2.2.2
        omega
      have hp : (b.synthesizeImage q).BackGround.Pix x y = b.BackGround.Pix x y := by
        rw [hpix, if_neg hout]
      refine ⟨hp, ?_⟩
      unfold RGBA.At
      rw [hrect, hp]

/-- C9 on a grey 300 x 330 canvas and a 300 x 300 bitmap: the diagonal pixel (7, 7) turns
black, the caption-band pixel (7, 310) stays grey. -/
theorem synthesizeImage_frame_witness :
    (0 : Int) ≤ 300 ∧ (300 : Int) < 2 ^ 53 ∧
    sampleCanvas.BackGround.Bounds = image.Rect 0 0 300 (heightOf 300) ∧
    sampleQRCode.Image.Bounds = image.Rect 0 0 300 300 ∧
    (sampleCanvas.synthesizeImage sampleQRCode).BackGround.At 7 7 = color.Black ∧
    (sampleCanvas.synthesizeImage sampleQRCode).BackGround.Pix 7 310 = ⟨128, 128, 128, 255⟩ :=
  ⟨by decide, by decide, by decide, by decide,
    ((synthesizeImage_frame 300 sampleCanvas sampleQRCode (by decide) (by decide) (by decide)
      (by decide)).1 7 7 (by decide) (by decide) (by decide) (by decide)).2 (Or.inl rfl),
    ((synthesizeImage_frame 300 sampleCanvas sampleQRCode (by decide) (by decide) (by decide)
      (by decide)).2.1 7 310 (by decide)).1⟩

end QRCodeWithText
